import Mathlib

/-!
Verification of the sorting-visualization core of the Gary repository.

The development shallowly embeds, in Lean 4:

* the step-sequence generator of
  `clientapp/src/composables/useSortingAlgorithms.ts`
  (classes `BubbleSort`, `SelectionSort`, `InsertionSort` and the shared
  base class `SortingAlgorithm.createStep`), together with the step-id
  generator of `clientapp/src/composables/useAlgorithmMapping.ts`;
* the playback state machine `SortingPlayer` of
  `clientapp/src/composables/themeManager.ts` (also under its source name
  `useSortingPlayer.ts`), including its `window.setTimeout` timers as an
  explicit multiset of pending timers;
* the Pinia store `useSortingVisualizationStore` of
  `clientapp/src/stores/sortingVisualization.ts` (navigation actions and the
  time-travel snapshot timeline).

JavaScript numbers that the program only ever uses as integers are modelled
as `Int`/`Nat`; the playback-speed multiplier, which is compared against
`0.1` and `5.0` and divided into `600`, is modelled as `ℚ` (every value the
program actually stores is decimal, so the rational model agrees with the
float semantics on all program constants).  A thrown JavaScript `Error` is
modelled as `Except.error`; every throwing function in the embedded code
throws before mutating anything, so returning the caller's unmodified state
on `error` is faithful.
-/

/-! ## Data model: `AlgorithmStep` (from `src/types/algorithm.ts`) -/

/-- Operation type, from `OperationType` in `src/types/algorithm.ts`. -/
inductive OperationType where
  | compare
  | swap
  | insert
  | merge
deriving DecidableEq

/-- One entry of `sortedRegions`.  The source field `end` is a Lean keyword
and is rendered here as `stop`. -/
structure SortedRegion where
  start : Nat
  stop : Nat
deriving DecidableEq

/-- `ArrayState` from `src/types/algorithm.ts`. -/
structure ArrayState where
  data : List Int
  highlightedIndices : List Nat
  comparisonPair : Option (Nat × Nat)
  swapPair : Option (Nat × Nat)
  sortedRegions : List SortedRegion
deriving DecidableEq

/-- The `complexity` field of `OperationInfo`. -/
structure ComplexityInfo where
  time : String
  space : String
deriving DecidableEq

/-- `OperationInfo` from `src/types/algorithm.ts`. -/
structure OperationInfo where
  type : OperationType
  description : String
  complexity : ComplexityInfo
deriving DecidableEq

/-- `VisualHints` from `src/types/algorithm.ts`; the `colors` record is
flattened into its three fields. -/
structure VisualHints where
  animationType : String
  duration : Nat
  comparing : String
  swapping : String
  sortedColor : String
deriving DecidableEq

/-- A step identifier, modelling the string
`PREFIX_timestamp.toString(36)_counter.toString(16).padStart(4,'0')`
produced by `createStepIdGenerator` in `useAlgorithmMapping.ts`.  The three
components are kept as separate fields; the rendered string determines the
triple (the counter component sits after the last underscore and neither a
base-36 timestamp nor a hex counter contains an underscore), so two
identifiers are equal iff the triples are. -/
structure StepId where
  tag : String
  stamp : Nat
  ctr : Nat
deriving DecidableEq

/-- `AlgorithmStep` from `src/types/algorithm.ts`. -/
structure AlgorithmStep where
  stepId : StepId
  sequenceNumber : Nat
  arrayState : ArrayState
  operation : OperationInfo
  visualHints : VisualHints
deriving DecidableEq

/-- `getVisualHints` from `useAlgorithmMapping.ts`, specialized to the
`defaultVisualizationMapping` table (the only mapping the generator uses):
animation and duration come from the operation's entry, the three colors from
the `compare`, `swap` and `sorted` entries. -/
def getVisualHints (t : OperationType) : VisualHints :=
  { animationType :=
      match t with
      | .compare => "highlight"
      | .swap => "slide"
      | .insert => "fade"
      | .merge => "slide"
    duration :=
      match t with
      | .compare => 300
      | .swap => 500
      | .insert => 400
      | .merge => 450
    comparing := "#3B82F6"
    swapping := "#EF4444"
    sortedColor := "#8B5CF6" }

/-- Shorthand for an `OperationInfo` literal. -/
def mkOp (t : OperationType) (descr time space : String) : OperationInfo :=
  { type := t, description := descr, complexity := { time := time, space := space } }

/-! ## The generator state (`SortingAlgorithm` base class) -/

/-- The mutable state of a `SortingAlgorithm` instance during one `sort()`
run: the `sequenceNumber` counter, the id-generator counter of
`createStepIdGenerator`, and the accumulated `steps` array. -/
structure GenState where
  sequenceNumber : Nat
  idCounter : Nat
  steps : List AlgorithmStep
deriving DecidableEq

/-- The generator state of a freshly constructed algorithm instance. -/
def GenState.init : GenState := ⟨0, 0, []⟩

/-- `SortingAlgorithm.createStep` fused with the `this.steps.push(...)` that
every call site performs immediately: increments `sequenceNumber`, draws a
fresh id from the id generator, and appends the step.  `τ` supplies the
`Date.now()` value observed by the id generator at each call (indexed by the
generator's counter); `tag` is the algorithm prefix of the id generator.
The source's defensive array copy `[...arrayState.data]` is the identity in
this pure model. -/
def createStep (τ : Nat → Nat) (tag : String) (g : GenState)
    (a : ArrayState) (op : OperationInfo) : GenState :=
  let c := g.idCounter + 1
  let step : AlgorithmStep :=
    { stepId := ⟨tag, τ c, c⟩
      sequenceNumber := g.sequenceNumber + 1
      arrayState := a
      operation := op
      visualHints := getVisualHints op.type }
  ⟨g.sequenceNumber + 1, c, g.steps ++ [step]⟩

/-! ## Index-based array access

The TypeScript code indexes into a mutable `number[]`.  We model the array
as a `List Int` with total indexed read/write: `getE` is `data[i]` (with
non-null assertion; every read in the embedded code is in-bounds), `List.set`
is `data[i] = v`, and `swapL` is the three-statement swap-via-temp idiom. -/

/-- `data[i]` (defaulting to `0` out of bounds; never used out of bounds). -/
def getE (l : List Int) (i : Nat) : Int := l.getD i 0

/-- The swap idiom `temp = data[i]; data[i] = data[j]; data[j] = temp`. -/
def swapL (l : List Int) (i j : Nat) : List Int :=
  (l.set i (getE l j)).set j (getE l i)

theorem getE_eq_getElem {l : List Int} {i : Nat} (h : i < l.length) :
    getE l i = l[i] := List.getD_eq_getElem l 0 h

theorem getE_set_self {l : List Int} {i : Nat} (v : Int) (h : i < l.length) :
    getE (l.set i v) i = v := by
  simp [getE, List.getD_eq_getElem?_getD, List.getElem?_set, h]

theorem getE_set_ne {l : List Int} {i j : Nat} (v : Int) (h : i ≠ j) :
    getE (l.set i v) j = getE l j := by
  simp [getE, List.getD_eq_getElem?_getD, List.getElem?_set, h]

theorem set_getE_self {l : List Int} {i : Nat} (h : i < l.length) :
    l.set i (getE l i) = l := by
  apply List.ext_getElem
  · simp
  · intro n h1 h2
    rw [List.getElem_set]
    split
    · next heq => subst heq; rw [getE_eq_getElem h]
    · rfl

theorem length_swapL (l : List Int) (i j : Nat) :
    (swapL l i j).length = l.length := by
  simp [swapL]

theorem getE_swapL_fst {l : List Int} {i j : Nat} (hne : i ≠ j)
    (hi : i < l.length) : getE (swapL l i j) i = getE l j := by
  rw [swapL, getE_set_ne _ (Ne.symm hne), getE_set_self _ hi]

theorem getE_swapL_snd {l : List Int} {i j : Nat} (hj : j < l.length) :
    getE (swapL l i j) j = getE l i := by
  rw [swapL, getE_set_self]
  simpa using hj

theorem getE_swapL_other {l : List Int} {i j k : Nat} (h1 : k ≠ i) (h2 : k ≠ j) :
    getE (swapL l i j) k = getE l k := by
  rw [swapL, getE_set_ne _ (Ne.symm h2), getE_set_ne _ (Ne.symm h1)]

theorem swapL_perm {l : List Int} {i j : Nat} (hi : i < l.length)
    (hj : j < l.length) : (swapL l i j).Perm l := by
  rcases eq_or_ne i j with rfl | hne
  · rw [swapL, List.set_set, set_getE_self hi]
  · rw [List.perm_iff_count]
    intro a
    have hj' : j < (l.set i (getE l j)).length := by simpa using hj
    rw [swapL, List.count_set _ _ _ _ hj', List.count_set _ _ _ _ hi]
    have hset : (l.set i (getE l j))[j] = l[j] := List.getElem_set_ne hne _
    have hgj : getE l j = l[j] := getE_eq_getElem hj
    have hgi : getE l i = l[i] := getE_eq_getElem hi
    have hmemi : l[i] ∈ l := List.getElem_mem hi
    have hmemj : l[j] ∈ l := List.getElem_mem hj
    have hci : l[i] = a → 1 ≤ List.count a l := by
      intro h; subst h; exact List.count_pos_iff.mpr hmemi
    have hcj : l[j] = a → 1 ≤ List.count a l := by
      intro h; subst h; exact List.count_pos_iff.mpr hmemj
    rw [hset, hgj, hgi]
    simp only [beq_iff_eq]
    split_ifs with h1 h2 h2
    · omega
    · have := hci h1; omega
    · have := hcj h2; omega
    · omega

/-! ## The step-sequence generator (`useSortingAlgorithms.ts`)

Each `sort()` method is translated loop-by-loop.  The spec's error taxonomy
names the empty-input rejection `InvalidInputError`; in the source it is the
`throw new Error('無法對空陣列進行排序')` guarding every variant. -/

/-- The typed error of the generator. -/
inductive SortError where
  | invalidInput
deriving DecidableEq

/-- The `sortedRegions` value used by bubble-sort compare/swap steps:
`i > 0 ? [{ start: n - i, end: n - 1 }] : []`. -/
def bubbleRegions (n i : Nat) : List SortedRegion :=
  if 0 < i then [⟨n - i, n - 1⟩] else []

/-- Inner loop of `BubbleSort.sort` (`for (let j = 0; j < n - i - 1; j++)`),
returning the mutated array, the `hasSwapped` flag, and the generator
state. -/
def bubbleInner (τ : Nat → Nat) (n i j : Nat) (data : List Int)
    (hasSwapped : Bool) (g : GenState) : List Int × Bool × GenState :=
  if h : j < n - i - 1 then
    let g := createStep τ "BUBBLE_SORT" g
      { data := data, highlightedIndices := [j, j + 1],
        comparisonPair := some (j, j + 1), swapPair := none,
        sortedRegions := bubbleRegions n i }
      (mkOp .compare
        ("比較元素 " ++ toString (getE data j) ++ " 和 " ++ toString (getE data (j + 1)))
        "O(1)" "O(1)")
    if getE data j > getE data (j + 1) then
      let g := createStep τ "BUBBLE_SORT" g
        { data := data, highlightedIndices := [j, j + 1],
          comparisonPair := none, swapPair := some (j, j + 1),
          sortedRegions := bubbleRegions n i }
        (mkOp .swap
          ("交換元素 " ++ toString (getE data j) ++ " 和 " ++ toString (getE data (j + 1)))
          "O(1)" "O(1)")
      bubbleInner τ n i (j + 1) (swapL data j (j + 1)) true g
    else
      bubbleInner τ n i (j + 1) data hasSwapped g
  else
    (data, hasSwapped, g)
termination_by n - i - 1 - j
decreasing_by all_goals omega

/-- Outer loop of `BubbleSort.sort` (`for (let i = 0; i < n - 1; i++)`),
including the end-of-pass step and the `if (!hasSwapped) break` early
exit. -/
def bubbleOuter (τ : Nat → Nat) (n i : Nat) (data : List Int)
    (g : GenState) : List Int × GenState :=
  if h : i < n - 1 then
    let r := bubbleInner τ n i 0 data false g
    let data := r.1
    let hasSwapped := r.2.1
    let g := r.2.2
    let g := createStep τ "BUBBLE_SORT" g
      { data := data, highlightedIndices := [n - i - 1],
        comparisonPair := none, swapPair := none,
        sortedRegions := [⟨n - i - 1, n - 1⟩] }
      (mkOp .compare
        ("第 " ++ toString (i + 1) ++ " 輪完成，元素 " ++ toString (getE data (n - i - 1))
          ++ " 已到達正確位置")
        "O(n)" "O(1)")
    if hasSwapped then
      bubbleOuter τ n (i + 1) data g
    else
      (data, g)
  else
    (data, g)
termination_by n - 1 - i
decreasing_by all_goals omega

/-- `BubbleSort.sort`: the full run, from the empty-input guard to the final
completion step. -/
def bubbleSortRun (τ : Nat → Nat) (input : List Int) :
    Except SortError (List AlgorithmStep) :=
  let data := input
  let n := data.length
  if n = 0 then
    .error .invalidInput
  else
    let r := bubbleOuter τ n 0 data GenState.init
    let data := r.1
    let g := r.2
    let g := createStep τ "BUBBLE_SORT" g
      { data := data, highlightedIndices := [],
        comparisonPair := none, swapPair := none,
        sortedRegions := [⟨0, n - 1⟩] }
      (mkOp .compare "氣泡排序完成" "O(n²)" "O(1)")
    .ok g.steps

/-- The `sortedRegions` value used by selection-sort scan steps:
`i > 0 ? [{ start: 0, end: i - 1 }] : []`. -/
def selRegions (i : Nat) : List SortedRegion :=
  if 0 < i then [⟨0, i - 1⟩] else []

/-- Inner loop of `SelectionSort.sort` (`for (let j = i + 1; j < n; j++)`):
scans for the minimum, emitting a compare step per comparison and an extra
step whenever a strictly smaller candidate is found.  The array is only
read, never written, so only the running `minIndex` and the generator state
are threaded. -/
def selInner (τ : Nat → Nat) (n i j minIndex : Nat) (data : List Int)
    (g : GenState) : Nat × GenState :=
  if h : j < n then
    let g := createStep τ "SELECTION_SORT" g
      { data := data, highlightedIndices := [minIndex, j],
        comparisonPair := some (minIndex, j), swapPair := none,
        sortedRegions := selRegions i }
      (mkOp .compare
        ("比較最小值候選 " ++ toString (getE data minIndex) ++ " 與 " ++ toString (getE data j))
        "O(1)" "O(1)")
    if getE data j < getE data minIndex then
      let g := createStep τ "SELECTION_SORT" g
        { data := data, highlightedIndices := [j],
          comparisonPair := none, swapPair := none,
          sortedRegions := selRegions i }
        (mkOp .compare ("找到新的最小值: " ++ toString (getE data j)) "O(1)" "O(1)")
      selInner τ n i (j + 1) j data g
    else
      selInner τ n i (j + 1) minIndex data g
  else
    (minIndex, g)
termination_by n - j
decreasing_by all_goals omega

/-- Outer loop of `SelectionSort.sort` (`for (let i = 0; i < n - 1; i++)`):
find the minimum of the remainder, swap it into place when its index
differs from `i`, and mark position `i` as settled. -/
def selOuter (τ : Nat → Nat) (n i : Nat) (data : List Int)
    (g : GenState) : List Int × GenState :=
  if h : i < n - 1 then
    let r := selInner τ n i (i + 1) i data g
    let minIndex := r.1
    let g := r.2
    let sw :=
      if minIndex ≠ i then
        let g := createStep τ "SELECTION_SORT" g
          { data := data, highlightedIndices := [i, minIndex],
            comparisonPair := none, swapPair := some (i, minIndex),
            sortedRegions := selRegions i }
          (mkOp .swap
            ("將最小值 " ++ toString (getE data minIndex) ++ " 交換到位置 " ++ toString i)
            "O(1)" "O(1)")
        (swapL data i minIndex, g)
      else
        (data, g)
    let data := sw.1
    let g := sw.2
    let g := createStep τ "SELECTION_SORT" g
      { data := data, highlightedIndices := [i],
        comparisonPair := none, swapPair := none,
        sortedRegions := [⟨0, i⟩] }
      (mkOp .compare
        ("位置 " ++ toString i ++ " 的元素 " ++ toString (getE data i) ++ " 已確定")
        "O(n)" "O(1)")
    selOuter τ n (i + 1) data g
  else
    (data, g)
termination_by n - 1 - i
decreasing_by all_goals omega

/-- `SelectionSort.sort`: the full run. -/
def selectionSortRun (τ : Nat → Nat) (input : List Int) :
    Except SortError (List AlgorithmStep) :=
  let data := input
  let n := data.length
  if n = 0 then
    .error .invalidInput
  else
    let r := selOuter τ n 0 data GenState.init
    let data := r.1
    let g := r.2
    let g := createStep τ "SELECTION_SORT" g
      { data := data, highlightedIndices := [],
        comparisonPair := none, swapPair := none,
        sortedRegions := [⟨0, n - 1⟩] }
      (mkOp .compare "選擇排序完成" "O(n²)" "O(1)")
    .ok g.steps

/-- Inner `while (j >= 0 && data[j] > key)` loop of `InsertionSort.sort`.
The source's signed cursor `j` (which may reach `-1`) is represented by the
natural number `jp = j + 1`, so the loop condition `j >= 0` becomes
`1 ≤ jp` and the reads/writes `data[j]`, `data[j+1]` become
`data[jp - 1]`, `data[jp]`.  Each iteration emits the compare step, shifts
`data[jp] = data[jp - 1]`, and emits the shift's insert step. -/
def insInner (τ : Nat → Nat) (i : Nat) (key : Int) (jp : Nat)
    (data : List Int) (g : GenState) : Nat × List Int × GenState :=
  if h : 1 ≤ jp ∧ getE data (jp - 1) > key then
    let g := createStep τ "INSERTION_SORT" g
      { data := data, highlightedIndices := [jp - 1, jp],
        comparisonPair := some (jp - 1, jp), swapPair := none,
        sortedRegions := [⟨0, i⟩] }
      (mkOp .compare
        ("比較 " ++ toString (getE data (jp - 1)) ++ " 與 " ++ toString key ++ "，需要右移")
        "O(1)" "O(1)")
    let data := data.set jp (getE data (jp - 1))
    let g := createStep τ "INSERTION_SORT" g
      { data := data, highlightedIndices := [jp],
        comparisonPair := none, swapPair := none,
        sortedRegions := [⟨0, i⟩] }
      (mkOp .insert ("將 " ++ toString (getE data jp) ++ " 右移一位") "O(1)" "O(1)")
    insInner τ i key (jp - 1) data g
  else
    (jp, data, g)
termination_by jp
decreasing_by all_goals omega

/-- Outer loop of `InsertionSort.sort` (`for (let i = 1; i < n; i++)`):
extract `key = data[i]`, shift the larger left neighbours right, place the
key, and emit the per-round completion step. -/
def insOuter (τ : Nat → Nat) (n i : Nat) (data : List Int)
    (g : GenState) : List Int × GenState :=
  if h : i < n then
    let key := getE data i
    let g := createStep τ "INSERTION_SORT" g
      { data := data, highlightedIndices := [i],
        comparisonPair := none, swapPair := none,
        sortedRegions := [⟨0, i - 1⟩] }
      (mkOp .compare
        ("取出元素 " ++ toString key ++ "，準備插入到已排序區域")
        "O(1)" "O(1)")
    let r := insInner τ i key i data g
    let jp := r.1
    let data := (r.2.1).set jp key
    let g := r.2.2
    let g := createStep τ "INSERTION_SORT" g
      { data := data, highlightedIndices := [jp],
        comparisonPair := none, swapPair := none,
        sortedRegions := [⟨0, i⟩] }
      (mkOp .insert ("將 " ++ toString key ++ " 插入到位置 " ++ toString jp) "O(1)" "O(1)")
    let g := createStep τ "INSERTION_SORT" g
      { data := data, highlightedIndices := [],
        comparisonPair := none, swapPair := none,
        sortedRegions := [⟨0, i⟩] }
      (mkOp .compare
        ("第 " ++ toString i ++ " 輪完成，前 " ++ toString (i + 1) ++ " 個元素已排序")
        "O(i)" "O(1)")
    insOuter τ n (i + 1) data g
  else
    (data, g)
termination_by n - i
decreasing_by all_goals omega

/-- `InsertionSort.sort`: the full run. -/
def insertionSortRun (τ : Nat → Nat) (input : List Int) :
    Except SortError (List AlgorithmStep) :=
  let data := input
  let n := data.length
  if n = 0 then
    .error .invalidInput
  else
    let r := insOuter τ n 1 data GenState.init
    let data := r.1
    let g := r.2
    let g := createStep τ "INSERTION_SORT" g
      { data := data, highlightedIndices := [],
        comparisonPair := none, swapPair := none,
        sortedRegions := [⟨0, n - 1⟩] }
      (mkOp .compare "插入排序完成" "O(n²)" "O(1)")
    .ok g.steps

/-- The step list of `createStep` is the old list with one step appended. -/
theorem createStep_steps (τ : Nat → Nat) (tag : String) (g : GenState)
    (a : ArrayState) (op : OperationInfo) :
    (createStep τ tag g a op).steps = g.steps ++
      [{ stepId := ⟨tag, τ (g.idCounter + 1), g.idCounter + 1⟩
         sequenceNumber := g.sequenceNumber + 1
         arrayState := a
         operation := op
         visualHints := getVisualHints op.type }] := rfl

/-- After `createStep`, the last step of the list carries the given
`ArrayState`. -/
theorem createStep_getLast (τ : Nat → Nat) (tag : String) (g : GenState)
    (a : ArrayState) (op : OperationInfo) :
    ∃ fin, (createStep τ tag g a op).steps.getLast? = some fin ∧
      fin.arrayState = a :=
  ⟨_, by rw [createStep_steps]; exact List.getLast?_concat _, rfl⟩

/-! ## Sortedness predicates and generic lemmas -/

/-- Index-level sortedness of the whole array. -/
def SortedAll (d : List Int) : Prop :=
  ∀ p q, p ≤ q → q < d.length → getE d p ≤ getE d q

/-- Bubble-sort outer invariant: every pair whose larger index lies in the
settled suffix `[s, len)` is ordered. -/
def OkSplitB (s : Nat) (d : List Int) : Prop :=
  ∀ p q, p ≤ q → q < d.length → s ≤ q → getE d p ≤ getE d q

theorem sortedAll_of_okSplitB_one {d : List Int} (h : OkSplitB 1 d) :
    SortedAll d := by
  intro p q hpq hq
  rcases Nat.eq_zero_or_pos q with rfl | hq1
  · have : p = 0 := Nat.le_zero.mp hpq
    simp [this]
  · exact h p q hpq hq hq1

theorem le_of_adjacent {d : List Int} {m : Nat}
    (h : ∀ t, t < m → getE d t ≤ getE d (t + 1)) :
    ∀ p q, p ≤ q → q ≤ m → getE d p ≤ getE d q := by
  intro p q hpq hqm
  induction q with
  | zero =>
    have : p = 0 := Nat.le_zero.mp hpq
    simp [this]
  | succ q ih =>
    rcases Nat.lt_or_ge p (q + 1) with hlt | hge
    · exact le_trans (ih (by omega) (by omega)) (h q (by omega))
    · have : p = q + 1 := by omega
      simp [this]

theorem sortedAll_pairwise {d : List Int} (h : SortedAll d) :
    d.Pairwise (· ≤ ·) := by
  rw [List.pairwise_iff_getElem]
  intro a b ha hb hab
  have := h a b (Nat.le_of_lt hab) hb
  rwa [getE_eq_getElem ha, getE_eq_getElem hb] at this

/-! ## Bubble sort: unfolding lemmas -/

theorem bubbleInner_stop (τ : Nat → Nat) (n i j : Nat) (d : List Int)
    (sw : Bool) (g : GenState) (hg : ¬ j < n - i - 1) :
    bubbleInner τ n i j d sw g = (d, sw, g) := by
  rw [bubbleInner, dif_neg hg]

theorem bubbleInner_succ_swap (τ : Nat → Nat) (n i j : Nat) (d : List Int)
    (sw : Bool) (g : GenState) (hg : j < n - i - 1)
    (hc : getE d j > getE d (j + 1)) :
    ∃ G, bubbleInner τ n i j d sw g =
      bubbleInner τ n i (j + 1) (swapL d j (j + 1)) true G :=
  ⟨_, by rw [bubbleInner, dif_pos hg, if_pos hc]⟩

theorem bubbleInner_succ_noswap (τ : Nat → Nat) (n i j : Nat) (d : List Int)
    (sw : Bool) (g : GenState) (hg : j < n - i - 1)
    (hc : ¬ getE d j > getE d (j + 1)) :
    ∃ G, bubbleInner τ n i j d sw g = bubbleInner τ n i (j + 1) d sw G :=
  ⟨_, by rw [bubbleInner, dif_pos hg, if_neg hc]⟩

/-! ## Bubble sort: the inner pass -/

/-- Full specification of one bubble pass starting at position `j`:
length preservation, positions outside `[j, n-i-1]` untouched, every
position of the pass region holds some value from the region, the region's
maximum ends at position `n-i-1`, a `false` swap flag certifies the pass
region was already adjacent-sorted, and the result is a permutation. -/
theorem bubbleInner_spec (τ : Nat → Nat) (n i : Nat) :
    ∀ K j d sw g, n - i - 1 - j = K → d.length = n → j ≤ n - i - 1 →
      (∀ t, t ≤ j → getE d t ≤ getE d j) →
      (bubbleInner τ n i j d sw g).1.length = n ∧
      (∀ t, t < j ∨ n - i - 1 < t →
        getE (bubbleInner τ n i j d sw g).1 t = getE d t) ∧
      (∀ t, t ≤ n - i - 1 → ∃ u, u ≤ n - i - 1 ∧
        getE (bubbleInner τ n i j d sw g).1 t = getE d u) ∧
      (∀ t, t ≤ n - i - 1 →
        getE (bubbleInner τ n i j d sw g).1 t ≤
          getE (bubbleInner τ n i j d sw g).1 (n - i - 1)) ∧
      ((bubbleInner τ n i j d sw g).2.1 = false →
        (bubbleInner τ n i j d sw g).1 = d ∧ sw = false ∧
        ∀ t, j ≤ t → t < n - i - 1 → getE d t ≤ getE d (t + 1)) ∧
      (bubbleInner τ n i j d sw g).1.Perm d := by
  intro K
  induction K with
  | zero =>
    intro j d sw g hK hlen hjm hmax
    have hg : ¬ j < n - i - 1 := by omega
    have hj : j = n - i - 1 := by omega
    rw [bubbleInner_stop τ n i j d sw g hg]
    refine ⟨hlen, fun t _ => rfl, fun t ht => ⟨t, ht, rfl⟩, ?_, ?_, List.Perm.refl d⟩
    · intro t ht
      subst hj
      exact hmax t ht
    · intro hsw
      exact ⟨rfl, hsw, fun t h1 h2 => by omega⟩
  | succ K ih =>
    intro j d sw g hK hlen hjm hmax
    have hg : j < n - i - 1 := by omega
    have hjlen : j < d.length := by omega
    have hj1len : j + 1 < d.length := by omega
    by_cases hc : getE d j > getE d (j + 1)
    · obtain ⟨G, heq⟩ := bubbleInner_succ_swap τ n i j d sw g hg hc
      rw [heq]
      have hd1len : (swapL d j (j + 1)).length = n := by
        rw [length_swapL]; exact hlen
      have hd1j1 : getE (swapL d j (j + 1)) (j + 1) = getE d j :=
        getE_swapL_snd hj1len
      have hd1j : getE (swapL d j (j + 1)) j = getE d (j + 1) :=
        getE_swapL_fst (by omega) hjlen
      have hother : ∀ t, t ≠ j → t ≠ j + 1 →
          getE (swapL d j (j + 1)) t = getE d t :=
        fun t h1 h2 => getE_swapL_other h1 h2
      have hmax1 : ∀ t, t ≤ j + 1 →
          getE (swapL d j (j + 1)) t ≤ getE (swapL d j (j + 1)) (j + 1) := by
        intro t ht
        rcases Nat.lt_or_ge t j with hlt | hge
        · rw [hother t (by omega) (by omega), hd1j1]
          exact hmax t (by omega)
        · rcases Nat.eq_or_lt_of_le hge with rfl | hge2
          · rw [hd1j, hd1j1]; omega
          · have : t = j + 1 := by omega
            simp [this]
      obtain ⟨H1, H2, H3, H4, H5, H6⟩ :=
        ih (j + 1) (swapL d j (j + 1)) true G (by omega) hd1len (by omega) hmax1
      refine ⟨by rw [H1], ?_, ?_, H4, ?_, ?_⟩
      · intro t ht
        have h2 := H2 t (by omega)
        rw [h2, hother t (by omega) (by omega)]
      · intro t ht
        obtain ⟨u, hu, he⟩ := H3 t ht
        rcases eq_or_ne u j with huj | huj
        · exact ⟨j + 1, by omega, by rw [he, huj, hd1j]⟩
        · rcases eq_or_ne u (j + 1) with huj1 | huj1
          · exact ⟨j, by omega, by rw [he, huj1, hd1j1]⟩
          · exact ⟨u, hu, by rw [he, hother u huj huj1]⟩
      · intro hfalse
        obtain ⟨_, hcontra, _⟩ := H5 hfalse
        exact absurd hcontra (by simp)
      · exact H6.trans (swapL_perm hjlen hj1len)
    · obtain ⟨G, heq⟩ := bubbleInner_succ_noswap τ n i j d sw g hg hc
      rw [heq]
      have hmax1 : ∀ t, t ≤ j + 1 → getE d t ≤ getE d (j + 1) := by
        intro t ht
        rcases Nat.lt_or_ge t (j + 1) with hlt | hge
        · exact le_trans (hmax t (by omega)) (by omega)
        · have : t = j + 1 := by omega
          simp [this]
      obtain ⟨H1, H2, H3, H4, H5, H6⟩ :=
        ih (j + 1) d sw G (by omega) hlen (by omega) hmax1
      refine ⟨H1, ?_, H3, H4, ?_, H6⟩
      · intro t ht
        exact H2 t (by omega)
      · intro hfalse
        obtain ⟨ha, hb, hadj⟩ := H5 hfalse
        refine ⟨ha, hb, ?_⟩
        intro t h1 h2
        rcases Nat.eq_or_lt_of_le h1 with rfl | h3
        · omega
        · exact hadj t (by omega) h2

/-! ## Bubble sort: the outer loop -/

theorem bubbleOuter_stop (τ : Nat → Nat) (n i : Nat) (d : List Int)
    (g : GenState) (hg : ¬ i < n - 1) : bubbleOuter τ n i d g = (d, g) := by
  rw [bubbleOuter, dif_neg hg]

theorem bubbleOuter_succ (τ : Nat → Nat) (n i : Nat) (d : List Int)
    (g : GenState) (hg : i < n - 1)
    (hsw : (bubbleInner τ n i 0 d false g).2.1 = true) :
    ∃ G, bubbleOuter τ n i d g =
      bubbleOuter τ n (i + 1) (bubbleInner τ n i 0 d false g).1 G :=
  ⟨_, by rw [bubbleOuter, dif_pos hg, if_pos hsw]⟩

theorem bubbleOuter_break (τ : Nat → Nat) (n i : Nat) (d : List Int)
    (g : GenState) (hg : i < n - 1)
    (hsw : ¬ (bubbleInner τ n i 0 d false g).2.1 = true) :
    ∃ G, bubbleOuter τ n i d g = ((bubbleInner τ n i 0 d false g).1, G) :=
  ⟨_, by rw [bubbleOuter, dif_pos hg, if_neg hsw]⟩

/-- Specification of the bubble outer loop: starting from any state whose
settled suffix `[n-i, n)` already satisfies the split invariant, the loop
returns a sorted permutation. -/
theorem bubbleOuter_spec (τ : Nat → Nat) (n : Nat) :
    ∀ K i d g, n - 1 - i = K → d.length = n → OkSplitB (n - i) d →
      (bubbleOuter τ n i d g).1.length = n ∧
      (bubbleOuter τ n i d g).1.Perm d ∧
      SortedAll (bubbleOuter τ n i d g).1 := by
  intro K
  induction K with
  | zero =>
    intro i d g hK hlen hsplit
    have hg : ¬ i < n - 1 := by omega
    rw [bubbleOuter_stop τ n i d g hg]
    refine ⟨hlen, List.Perm.refl d, ?_⟩
    apply sortedAll_of_okSplitB_one
    intro p q hpq hq hq1
    exact hsplit p q hpq hq (by omega)
  | succ K ih =>
    intro i d g hK hlen hsplit
    have hg : i < n - 1 := by omega
    have hmax0 : ∀ t, t ≤ 0 → getE d t ≤ getE d 0 := by
      intro t ht
      have : t = 0 := Nat.le_zero.mp ht
      simp [this]
    obtain ⟨H1, H2, H3, H4, H5, H6⟩ :=
      bubbleInner_spec τ n i (n - i - 1) 0 d false g (by omega) hlen (by omega) hmax0
    by_cases hsw : (bubbleInner τ n i 0 d false g).2.1 = true
    · obtain ⟨G, heq⟩ := bubbleOuter_succ τ n i d g hg hsw
      rw [heq]
      have hsplit1 : OkSplitB (n - (i + 1)) (bubbleInner τ n i 0 d false g).1 := by
        intro p q hpq hq hq1
        rw [H1] at hq
        rcases Nat.eq_or_lt_of_le hq1 with hqm | hqm
        · have hqm' : q = n - i - 1 := by omega
          subst hqm'
          exact H4 p (by omega)
        · have hqu : n - i - 1 < q := by omega
          rw [H2 q (Or.inr hqu)]
          rcases Nat.lt_or_ge (n - i - 1) p with hp | hp
          · rw [H2 p (Or.inr hp)]
            exact hsplit p q hpq (by omega) (by omega)
          · obtain ⟨u, hu, he⟩ := H3 p hp
            rw [he]
            exact hsplit u q (by omega) (by omega) (by omega)
      obtain ⟨G1, G2, G3⟩ := ih (i + 1) (bubbleInner τ n i 0 d false g).1 G
        (by omega) H1 hsplit1
      exact ⟨G1, G2.trans H6, G3⟩
    · obtain ⟨G, heq⟩ := bubbleOuter_break τ n i d g hg hsw
      rw [heq]
      obtain ⟨hid, _, hadj⟩ := H5 (by simpa using hsw)
      refine ⟨H1, H6, ?_⟩
      intro p q hpq hq
      rw [H1] at hq
      rw [hid]
      rcases le_or_lt q (n - i - 1) with hqm | hqm
      · exact le_of_adjacent (fun t h2 => hadj t (by omega) h2) p q hpq hqm
      · exact hsplit p q hpq (by omega) (by omega)

/-- `BubbleSort.sort` on a non-empty input returns a non-empty step list
whose final step records a sorted permutation of the input. -/
theorem bubbleSortRun_correct (τ : Nat → Nat) (l : List Int) (h : l ≠ []) :
    ∃ ss, bubbleSortRun τ l = .ok ss ∧ ss ≠ [] ∧
      ∃ fin, ss.getLast? = some fin ∧
        fin.arrayState.data.Perm l ∧ fin.arrayState.data.Pairwise (· ≤ ·) := by
  have hn : ¬ l.length = 0 := by
    simpa using h
  have hsplit : OkSplitB (l.length - 0) l := by
    intro p q hpq hq hq1
    omega
  obtain ⟨H1, H2, H3⟩ := bubbleOuter_spec τ l.length (l.length - 1) 0 l
    GenState.init rfl rfl hsplit
  rw [bubbleSortRun]
  simp only [if_neg hn]
  refine ⟨_, rfl, ?_, ?_⟩
  · simp [createStep]
  · obtain ⟨fin, hlast, hfa⟩ := createStep_getLast τ "BUBBLE_SORT" _ _ _
    refine ⟨fin, hlast, ?_, ?_⟩
    · rw [hfa]; exact H2
    · rw [hfa]; exact sortedAll_pairwise H3

/-! ## Selection sort -/

theorem selInner_stop (τ : Nat → Nat) (n i j mi : Nat) (d : List Int)
    (g : GenState) (hg : ¬ j < n) : selInner τ n i j mi d g = (mi, g) := by
  rw [selInner, dif_neg hg]

theorem selInner_newmin (τ : Nat → Nat) (n i j mi : Nat) (d : List Int)
    (g : GenState) (hg : j < n) (hc : getE d j < getE d mi) :
    ∃ G, selInner τ n i j mi d g = selInner τ n i (j + 1) j d G :=
  ⟨_, by rw [selInner, dif_pos hg, if_pos hc]⟩

theorem selInner_keep (τ : Nat → Nat) (n i j mi : Nat) (d : List Int)
    (g : GenState) (hg : j < n) (hc : ¬ getE d j < getE d mi) :
    ∃ G, selInner τ n i j mi d g = selInner τ n i (j + 1) mi d G :=
  ⟨_, by rw [selInner, dif_pos hg, if_neg hc]⟩

/-- The minimum-scan of `SelectionSort.sort` returns the index of a minimal
element of `d[i..n)`. -/
theorem selInner_spec (τ : Nat → Nat) (n i : Nat) (d : List Int) :
    ∀ K j mi g, n - j = K → i ≤ mi → mi < j → j ≤ n →
      (∀ t, i ≤ t → t < j → getE d mi ≤ getE d t) →
      i ≤ (selInner τ n i j mi d g).1 ∧ (selInner τ n i j mi d g).1 < n ∧
      ∀ t, i ≤ t → t < n → getE d (selInner τ n i j mi d g).1 ≤ getE d t := by
  intro K
  induction K with
  | zero =>
    intro j mi g hK himi hmij hjn hmin
    have hg : ¬ j < n := by omega
    rw [selInner_stop τ n i j mi d g hg]
    exact ⟨himi, by omega, fun t h1 h2 => hmin t h1 (by omega)⟩
  | succ K ih =>
    intro j mi g hK himi hmij hjn hmin
    have hg : j < n := by omega
    by_cases hc : getE d j < getE d mi
    · obtain ⟨G, heq⟩ := selInner_newmin τ n i j mi d g hg hc
      rw [heq]
      refine ih (j + 1) j G (by omega) (by omega) (by omega) (by omega) ?_
      intro t h1 h2
      rcases Nat.lt_or_ge t j with hlt | hge
      · exact le_trans (le_of_lt hc) (hmin t h1 hlt)
      · have : t = j := by omega
        simp [this]
    · obtain ⟨G, heq⟩ := selInner_keep τ n i j mi d g hg hc
      rw [heq]
      refine ih (j + 1) mi G (by omega) himi (by omega) (by omega) ?_
      intro t h1 h2
      rcases Nat.lt_or_ge t j with hlt | hge
      · exact hmin t h1 hlt
      · have : t = j := by omega
        rw [this]
        omega

theorem selOuter_stop (τ : Nat → Nat) (n i : Nat) (d : List Int)
    (g : GenState) (hg : ¬ i < n - 1) : selOuter τ n i d g = (d, g) := by
  rw [selOuter, dif_neg hg]

theorem selOuter_succ_swap (τ : Nat → Nat) (n i : Nat) (d : List Int)
    (g : GenState) (hg : i < n - 1)
    (hc : (selInner τ n i (i + 1) i d g).1 ≠ i) :
    ∃ G, selOuter τ n i d g =
      selOuter τ n (i + 1) (swapL d i (selInner τ n i (i + 1) i d g).1) G :=
  ⟨_, by rw [selOuter, dif_pos hg]; dsimp only; rw [if_pos hc]⟩

theorem selOuter_succ_noswap (τ : Nat → Nat) (n i : Nat) (d : List Int)
    (g : GenState) (hg : i < n - 1)
    (hc : ¬ (selInner τ n i (i + 1) i d g).1 ≠ i) :
    ∃ G, selOuter τ n i d g = selOuter τ n (i + 1) d G :=
  ⟨_, by rw [selOuter, dif_pos hg]; dsimp only; rw [if_neg hc]⟩

/-- Selection-sort outer invariant: every element of the settled prefix
`[0, i)` is below everything to its right. -/
def OkSel (i : Nat) (d : List Int) : Prop :=
  ∀ p q, p < i → p ≤ q → q < d.length → getE d p ≤ getE d q

theorem sortedAll_of_okSel {i : Nat} {d : List Int} (hlen : d.length ≤ i + 1)
    (h : OkSel i d) : SortedAll d := by
  intro p q hpq hq
  rcases Nat.eq_or_lt_of_le hpq with rfl | hlt
  · exact le_refl _
  · exact h p q (by omega) hpq hq

/-- Specification of the selection outer loop. -/
theorem selOuter_spec (τ : Nat → Nat) (n : Nat) :
    ∀ K i d g, n - 1 - i = K → d.length = n → OkSel i d →
      (selOuter τ n i d g).1.length = n ∧
      (selOuter τ n i d g).1.Perm d ∧
      SortedAll (selOuter τ n i d g).1 := by
  intro K
  induction K with
  | zero =>
    intro i d g hK hlen hsel
    have hg : ¬ i < n - 1 := by omega
    rw [selOuter_stop τ n i d g hg]
    exact ⟨hlen, List.Perm.refl d,
      sortedAll_of_okSel (show d.length ≤ i + 1 by omega) hsel⟩
  | succ K ih =>
    intro i d g hK hlen hsel
    have hg : i < n - 1 := by omega
    have hmin0 : ∀ t, i ≤ t → t < i + 1 → getE d i ≤ getE d t := by
      intro t h1 h2
      have : t = i := by omega
      simp [this]
    obtain ⟨himi, hmin, hminval⟩ := selInner_spec τ n i d (n - (i + 1)) (i + 1) i g
      (by omega) (le_refl i) (by omega) (by omega) hmin0
    by_cases hc : (selInner τ n i (i + 1) i d g).1 ≠ i
    · obtain ⟨G, heq⟩ := selOuter_succ_swap τ n i d g hg hc
      rw [heq]
      have hilen : i < d.length := by omega
      have hmilen : (selInner τ n i (i + 1) i d g).1 < d.length := by omega
      have hlen1 : (swapL d i (selInner τ n i (i + 1) i d g).1).length = n := by
        rw [length_swapL]; exact hlen
      have hfst : getE (swapL d i (selInner τ n i (i + 1) i d g).1) i =
          getE d (selInner τ n i (i + 1) i d g).1 :=
        getE_swapL_fst (Ne.symm hc) hilen
      have hsnd : getE (swapL d i (selInner τ n i (i + 1) i d g).1)
          (selInner τ n i (i + 1) i d g).1 = getE d i :=
        getE_swapL_snd hmilen
      have hoth : ∀ t, t ≠ i → t ≠ (selInner τ n i (i + 1) i d g).1 →
          getE (swapL d i (selInner τ n i (i + 1) i d g).1) t = getE d t :=
        fun t h1 h2 => getE_swapL_other h1 h2
      have hsel1 : OkSel (i + 1) (swapL d i (selInner τ n i (i + 1) i d g).1) := by
        intro p q hp hpq hq
        rw [hlen1] at hq
        rcases Nat.lt_or_ge p i with hpi | hpi
        · rw [hoth p (by omega) (by omega)]
          rcases eq_or_ne q i with hqe | hqe
          · rw [hqe, hfst]
            exact hsel p _ hpi (by omega) (by omega)
          · rcases eq_or_ne q (selInner τ n i (i + 1) i d g).1 with hqe2 | hqe2
            · rw [hqe2, hsnd]
              exact hsel p i hpi (by omega) (by omega)
            · rw [hoth q hqe hqe2]
              exact hsel p q hpi hpq (by omega)
        · have hpeq : p = i := by omega
          rw [hpeq, hfst]
          rcases eq_or_ne q i with hqe | hqe
          · rw [hqe, hfst]
          · rcases eq_or_ne q (selInner τ n i (i + 1) i d g).1 with hqe2 | hqe2
            · rw [hqe2, hsnd]
              exact hminval i (le_refl i) (by omega)
            · rw [hoth q hqe hqe2]
              exact hminval q (by omega) (by omega)
      obtain ⟨G1, G2, G3⟩ := ih (i + 1) _ G (by omega) hlen1 hsel1
      exact ⟨G1, G2.trans (swapL_perm hilen hmilen), G3⟩
    · obtain ⟨G, heq⟩ := selOuter_succ_noswap τ n i d g hg hc
      rw [heq]
      have hmi : (selInner τ n i (i + 1) i d g).1 = i := by
        simpa using hc
      rw [hmi] at hminval
      have hsel1 : OkSel (i + 1) d := by
        intro p q hp hpq hq
        rcases Nat.lt_or_ge p i with hpi | hpi
        · exact hsel p q hpi hpq hq
        · have hpeq : p = i := by omega
          subst hpeq
          exact hminval q (by omega) (by omega)
      obtain ⟨G1, G2, G3⟩ := ih (i + 1) d G (by omega) hlen hsel1
      exact ⟨G1, G2, G3⟩

/-- `SelectionSort.sort` on a non-empty input returns a non-empty step list
whose final step records a sorted permutation of the input. -/
theorem selectionSortRun_correct (τ : Nat → Nat) (l : List Int) (h : l ≠ []) :
    ∃ ss, selectionSortRun τ l = .ok ss ∧ ss ≠ [] ∧
      ∃ fin, ss.getLast? = some fin ∧
        fin.arrayState.data.Perm l ∧ fin.arrayState.data.Pairwise (· ≤ ·) := by
  have hn : ¬ l.length = 0 := by
    simpa using h
  have hsel : OkSel 0 l := by
    intro p q hp hpq hq
    omega
  obtain ⟨H1, H2, H3⟩ := selOuter_spec τ l.length (l.length - 1) 0 l
    GenState.init rfl rfl hsel
  rw [selectionSortRun]
  simp only [if_neg hn]
  refine ⟨_, rfl, ?_, ?_⟩
  · simp [createStep]
  · obtain ⟨fin, hlast, hfa⟩ := createStep_getLast τ "SELECTION_SORT" _ _ _
    refine ⟨fin, hlast, ?_, ?_⟩
    · rw [hfa]; exact H2
    · rw [hfa]; exact sortedAll_pairwise H3

/-! ## Insertion sort -/

theorem insInner_stop (τ : Nat → Nat) (i : Nat) (key : Int) (jp : Nat)
    (d : List Int) (g : GenState)
    (hg : ¬ (1 ≤ jp ∧ getE d (jp - 1) > key)) :
    insInner τ i key jp d g = (jp, d, g) := by
  rw [insInner, dif_neg hg]

theorem insInner_succ (τ : Nat → Nat) (i : Nat) (key : Int) (jp : Nat)
    (d : List Int) (g : GenState)
    (hg : 1 ≤ jp ∧ getE d (jp - 1) > key) :
    ∃ G, insInner τ i key jp d g =
      insInner τ i key (jp - 1) (d.set jp (getE d (jp - 1))) G :=
  ⟨_, by rw [insInner, dif_pos hg]⟩

/-- The one-position-right shift `data[a+1] = data[a]` followed by writing
`key` at `a` equals a swap on the array that already holds `key` at
`a+1`. -/
theorem set_shift_swap (d : List Int) (key : Int) (a : Nat)
    (h : a + 1 < d.length) :
    (d.set (a + 1) (getE d a)).set a key =
      swapL (d.set (a + 1) key) a (a + 1) := by
  have ha : a < d.length := by omega
  unfold swapL
  rw [getE_set_self key h, getE_set_ne key (show a + 1 ≠ a by omega)]
  apply List.ext_getElem
  · simp
  · intro t ht1 ht2
    simp only [List.getElem_set]
    split_ifs <;> try rfl
    all_goals omega

/-- Specification of the insertion shift loop, relative to the array `d` at
call time: the final cursor `jp*` is at most `jp`; positions at or below
`jp*`, and above `jp`, are untouched; positions in `(jp*, jp]` hold their
left neighbour's old value, which is strictly greater than the key; the
loop exits either at the left edge or at a stop witness `d[jp*-1] ≤ key`;
and writing the key into the hole permutes the array that would have held
the key at `jp`. -/
theorem insInner_spec (τ : Nat → Nat) (i : Nat) (key : Int) :
    ∀ jp d g, jp < d.length →
      (insInner τ i key jp d g).2.1.length = d.length ∧
      (insInner τ i key jp d g).1 ≤ jp ∧
      (∀ t, t ≤ (insInner τ i key jp d g).1 ∨ jp < t →
        getE (insInner τ i key jp d g).2.1 t = getE d t) ∧
      (∀ t, (insInner τ i key jp d g).1 < t → t ≤ jp →
        getE (insInner τ i key jp d g).2.1 t = getE d (t - 1) ∧
        key < getE d (t - 1)) ∧
      ((insInner τ i key jp d g).1 = 0 ∨
        getE d ((insInner τ i key jp d g).1 - 1) ≤ key) ∧
      (((insInner τ i key jp d g).2.1.set (insInner τ i key jp d g).1 key).Perm
        (d.set jp key)) := by
  intro jp
  induction jp with
  | zero =>
    intro d g hlen
    have hg : ¬ (1 ≤ 0 ∧ getE d (0 - 1) > key) := by
      intro h
      omega
    rw [insInner_stop τ i key 0 d g hg]
    refine ⟨rfl, le_refl 0, fun t _ => rfl, ?_, Or.inl rfl, List.Perm.refl _⟩
    intro t h1 h2
    omega
  | succ jp0 ih =>
    intro d g hlen
    by_cases hgt : getE d jp0 > key
    · have hg : 1 ≤ jp0 + 1 ∧ getE d (jp0 + 1 - 1) > key := by
        constructor
        · omega
        · simpa using hgt
      obtain ⟨G, heq⟩ := insInner_succ τ i key (jp0 + 1) d g hg
      rw [heq]
      have hsimp : jp0 + 1 - 1 = jp0 := by omega
      rw [hsimp]
      have hlen1 : (d.set (jp0 + 1) (getE d jp0)).length = d.length := by simp
      have hjp0len : jp0 < (d.set (jp0 + 1) (getE d jp0)).length := by
        rw [hlen1]; omega
      obtain ⟨H1, H2, H3, H4, H5, H6⟩ := ih (d.set (jp0 + 1) (getE d jp0)) G hjp0len
      have hne1 : ∀ t, t ≠ jp0 + 1 →
          getE (d.set (jp0 + 1) (getE d jp0)) t = getE d t :=
        fun t ht => getE_set_ne _ (fun he => ht he.symm)
      refine ⟨?_, ?_, ?_, ?_, ?_, ?_⟩
      · rw [H1, hlen1]
      · omega
      · intro t ht
        rcases ht with ht | ht
        · rw [H3 t (Or.inl ht), hne1 t (by omega)]
        · rw [H3 t (Or.inr (by omega)), hne1 t (by omega)]
      · intro t h1 h2
        rcases Nat.lt_or_ge t (jp0 + 1) with hlt | hge
        · obtain ⟨ha, hb⟩ := H4 t h1 (by omega)
          rw [hne1 (t - 1) (by omega)] at ha hb
          exact ⟨ha, hb⟩
        · have hteq : t = jp0 + 1 := by omega
          subst hteq
          constructor
          · rw [H3 (jp0 + 1) (Or.inr (by omega)),
              getE_set_self _ (by omega), hsimp]
          · rw [hsimp]
            exact hgt
      · rcases H5 with h | h
        · exact Or.inl h
        · right
          rw [hne1 _ (by omega)] at h
          exact h
      · refine H6.trans ?_
        rw [set_shift_swap d key jp0 (by omega)]
        have h1 : jp0 < (d.set (jp0 + 1) key).length := by simp; omega
        have h2 : jp0 + 1 < (d.set (jp0 + 1) key).length := by simp; omega
        exact swapL_perm h1 h2
    · have hg : ¬ (1 ≤ jp0 + 1 ∧ getE d (jp0 + 1 - 1) > key) := by
        intro hcon
        apply hgt
        simpa using hcon.2
      rw [insInner_stop τ i key (jp0 + 1) d g hg]
      refine ⟨rfl, le_refl _, fun t _ => rfl, ?_, ?_, List.Perm.refl _⟩
      · intro t h1 h2
        omega
      · right
        have : jp0 + 1 - 1 = jp0 := by omega
        rw [this]
        omega

theorem insOuter_stop (τ : Nat → Nat) (n i : Nat) (d : List Int)
    (g : GenState) (hg : ¬ i < n) : insOuter τ n i d g = (d, g) := by
  rw [insOuter, dif_neg hg]

theorem insOuter_succ (τ : Nat → Nat) (n i : Nat) (d : List Int)
    (g : GenState) (hg : i < n) :
    ∃ G1 G2, insOuter τ n i d g =
      insOuter τ n (i + 1)
        ((insInner τ i (getE d i) i d G1).2.1.set
          (insInner τ i (getE d i) i d G1).1 (getE d i)) G2 :=
  ⟨_, _, by rw [insOuter, dif_pos hg]⟩

/-- Insertion-sort outer invariant: the prefix `[0, m)` is sorted. -/
def SortedUpTo (m : Nat) (d : List Int) : Prop :=
  ∀ p q, p ≤ q → q < m → getE d p ≤ getE d q

/-- Specification of the insertion outer loop. -/
theorem insOuter_spec (τ : Nat → Nat) (n : Nat) :
    ∀ K i d g, n - i = K → d.length = n → SortedUpTo i d →
      (insOuter τ n i d g).1.length = n ∧
      (insOuter τ n i d g).1.Perm d ∧
      SortedAll (insOuter τ n i d g).1 := by
  intro K
  induction K with
  | zero =>
    intro i d g hK hlen hsorted
    have hg : ¬ i < n := by omega
    rw [insOuter_stop τ n i d g hg]
    refine ⟨hlen, List.Perm.refl d, ?_⟩
    intro p q hpq hq
    have hq' : q < d.length := hq
    exact hsorted p q hpq (by omega)
  | succ K ih =>
    intro i d g hK hlen hsorted
    have hg : i < n := by omega
    obtain ⟨G1, G2, heq⟩ := insOuter_succ τ n i d g hg
    rw [heq]
    have hilen : i < d.length := by omega
    obtain ⟨H1, H2, H3, H4, H5, H6⟩ := insInner_spec τ i (getE d i) i d G1 hilen
    have hjplen : (insInner τ i (getE d i) i d G1).1 <
        (insInner τ i (getE d i) i d G1).2.1.length := by
      rw [H1]; omega
    have hlen' : ((insInner τ i (getE d i) i d G1).2.1.set
        (insInner τ i (getE d i) i d G1).1 (getE d i)).length = n := by
      rw [List.length_set, H1, hlen]
    have hperm : (((insInner τ i (getE d i) i d G1).2.1.set
        (insInner τ i (getE d i) i d G1).1 (getE d i))).Perm d := by
      have := H6.trans (List.Perm.of_eq (set_getE_self hilen))
      exact this
    have hchar_low : ∀ t, t < (insInner τ i (getE d i) i d G1).1 →
        getE ((insInner τ i (getE d i) i d G1).2.1.set
          (insInner τ i (getE d i) i d G1).1 (getE d i)) t = getE d t := by
      intro t ht
      rw [getE_set_ne _ (by omega), H3 t (Or.inl (by omega))]
    have hchar_eq : getE ((insInner τ i (getE d i) i d G1).2.1.set
        (insInner τ i (getE d i) i d G1).1 (getE d i))
        (insInner τ i (getE d i) i d G1).1 = getE d i :=
      getE_set_self _ hjplen
    have hchar_mid : ∀ t, (insInner τ i (getE d i) i d G1).1 < t → t ≤ i →
        getE ((insInner τ i (getE d i) i d G1).2.1.set
          (insInner τ i (getE d i) i d G1).1 (getE d i)) t = getE d (t - 1) ∧
        getE d i < getE d (t - 1) := by
      intro t h1 h2
      obtain ⟨ha, hb⟩ := H4 t h1 h2
      constructor
      · rw [getE_set_ne _ (by omega), ha]
      · exact hb
    have hsorted' : SortedUpTo (i + 1)
        ((insInner τ i (getE d i) i d G1).2.1.set
          (insInner τ i (getE d i) i d G1).1 (getE d i)) := by
      intro p q hpq hq
      rcases Nat.eq_or_lt_of_le hpq with hpeq | hplt
      · subst hpeq
        exact le_refl _
      · rcases Nat.lt_or_ge q (insInner τ i (getE d i) i d G1).1 with hq1 | hq1
        · rw [hchar_low p (by omega), hchar_low q hq1]
          exact hsorted p q hpq (by omega)
        · rcases Nat.eq_or_lt_of_le hq1 with hq2 | hq2
          · rw [← hq2, hchar_eq, hchar_low p (by omega)]
            rcases H5 with h5 | h5
            · omega
            · refine le_trans ?_ h5
              rcases Nat.eq_or_lt_of_le (show p ≤ (insInner τ i (getE d i) i d G1).1 - 1 by omega)
                with hpe | hpe
              · rw [hpe]
              · exact hsorted p _ (by omega) (by omega)
          · obtain ⟨hqa, hqb⟩ := hchar_mid q hq2 (by omega)
            rw [hqa]
            rcases Nat.lt_or_ge p (insInner τ i (getE d i) i d G1).1 with hp1 | hp1
            · rw [hchar_low p hp1]
              exact hsorted p (q - 1) (by omega) (by omega)
            · rcases Nat.eq_or_lt_of_le hp1 with hp2 | hp2
              · rw [← hp2, hchar_eq]
                exact le_of_lt hqb
              · obtain ⟨hpa, hpb⟩ := hchar_mid p hp2 (by omega)
                rw [hpa]
                exact hsorted (p - 1) (q - 1) (by omega) (by omega)
    obtain ⟨R1, R2, R3⟩ := ih (i + 1) _ G2 (by omega) hlen' hsorted'
    exact ⟨R1, R2.trans hperm, R3⟩

/-- `InsertionSort.sort` on a non-empty input returns a non-empty step list
whose final step records a sorted permutation of the input. -/
theorem insertionSortRun_correct (τ : Nat → Nat) (l : List Int) (h : l ≠ []) :
    ∃ ss, insertionSortRun τ l = .ok ss ∧ ss ≠ [] ∧
      ∃ fin, ss.getLast? = some fin ∧
        fin.arrayState.data.Perm l ∧ fin.arrayState.data.Pairwise (· ≤ ·) := by
  have hn : ¬ l.length = 0 := by
    simpa using h
  have hsorted : SortedUpTo 1 l := by
    intro p q hpq hq
    have hp0 : p = 0 := by omega
    have hq0 : q = 0 := by omega
    rw [hp0, hq0]
  obtain ⟨H1, H2, H3⟩ := insOuter_spec τ l.length (l.length - 1) 1 l
    GenState.init (by omega) rfl hsorted
  rw [insertionSortRun]
  simp only [if_neg hn]
  refine ⟨_, rfl, ?_, ?_⟩
  · simp [createStep]
  · obtain ⟨fin, hlast, hfa⟩ := createStep_getLast τ "INSERTION_SORT" _ _ _
    refine ⟨fin, hlast, ?_, ?_⟩
    · rw [hfa]; exact H2
    · rw [hfa]; exact sortedAll_pairwise H3

/-! ## Well-formedness of generated step sequences (sequence numbers, ids) -/

/-- Invariant of the generator state: both counters equal the number of
steps emitted so far, and the `k`-th emitted step carries sequence number
and id counter `k + 1`. -/
def GoodGen (g : GenState) : Prop :=
  g.sequenceNumber = g.steps.length ∧
  g.idCounter = g.steps.length ∧
  ∀ k (hk : k < g.steps.length),
    (g.steps.get ⟨k, hk⟩).sequenceNumber = k + 1 ∧
    (g.steps.get ⟨k, hk⟩).stepId.ctr = k + 1

theorem goodGen_init : GoodGen GenState.init := by
  refine ⟨rfl, rfl, ?_⟩
  intro k hk
  simp [GenState.init] at hk

theorem createStep_good (τ : Nat → Nat) (tag : String) (a : ArrayState)
    (op : OperationInfo) {g : GenState} (h : GoodGen g) :
    GoodGen (createStep τ tag g a op) := by
  obtain ⟨h1, h2, h3⟩ := h
  refine ⟨?_, ?_, ?_⟩
  · simp [createStep, h1]
  · simp [createStep, h2]
  · intro k hk
    have hk' : k < g.steps.length + 1 := by
      simpa [createStep] using hk
    simp only [createStep, List.get_eq_getElem]
    rcases Nat.lt_or_ge k g.steps.length with hlt | hge
    · rw [List.getElem_append_left hlt]
      have := h3 k hlt
      simpa using this
    · have hkeq : k = g.steps.length := by omega
      rw [List.getElem_concat_length _ _ k hkeq]
      constructor
      · simp [h1, hkeq]
      · simp [h2, hkeq]

theorem bubbleInner_good (τ : Nat → Nat) (n i : Nat) :
    ∀ K j d sw g, n - i - 1 - j = K → GoodGen g →
      GoodGen (bubbleInner τ n i j d sw g).2.2 := by
  intro K
  induction K with
  | zero =>
    intro j d sw g hK hgood
    rw [bubbleInner_stop τ n i j d sw g (by omega)]
    exact hgood
  | succ K ih =>
    intro j d sw g hK hgood
    have hg : j < n - i - 1 := by omega
    by_cases hc : getE d j > getE d (j + 1)
    · rw [bubbleInner, dif_pos hg, if_pos hc]
      exact ih (j + 1) _ _ _ (by omega)
        (createStep_good _ _ _ _ (createStep_good _ _ _ _ hgood))
    · rw [bubbleInner, dif_pos hg, if_neg hc]
      exact ih (j + 1) _ _ _ (by omega) (createStep_good _ _ _ _ hgood)

theorem bubbleOuter_good (τ : Nat → Nat) (n : Nat) :
    ∀ K i d g, n - 1 - i = K → GoodGen g →
      GoodGen (bubbleOuter τ n i d g).2 := by
  intro K
  induction K with
  | zero =>
    intro i d g hK hgood
    rw [bubbleOuter_stop τ n i d g (by omega)]
    exact hgood
  | succ K ih =>
    intro i d g hK hgood
    have hg : i < n - 1 := by omega
    have hinner : GoodGen (bubbleInner τ n i 0 d false g).2.2 :=
      bubbleInner_good τ n i (n - i - 1) 0 d false g rfl hgood
    by_cases hsw : (bubbleInner τ n i 0 d false g).2.1 = true
    · rw [bubbleOuter, dif_pos hg, if_pos hsw]
      exact ih (i + 1) _ _ (by omega) (createStep_good _ _ _ _ hinner)
    · rw [bubbleOuter, dif_pos hg, if_neg hsw]
      exact createStep_good _ _ _ _ hinner

theorem selInner_good (τ : Nat → Nat) (n i : Nat) (d : List Int) :
    ∀ K j mi g, n - j = K → GoodGen g →
      GoodGen (selInner τ n i j mi d g).2 := by
  intro K
  induction K with
  | zero =>
    intro j mi g hK hgood
    rw [selInner_stop τ n i j mi d g (by omega)]
    exact hgood
  | succ K ih =>
    intro j mi g hK hgood
    have hg : j < n := by omega
    by_cases hc : getE d j < getE d mi
    · rw [selInner, dif_pos hg, if_pos hc]
      exact ih (j + 1) _ _ (by omega)
        (createStep_good _ _ _ _ (createStep_good _ _ _ _ hgood))
    · rw [selInner, dif_pos hg, if_neg hc]
      exact ih (j + 1) _ _ (by omega) (createStep_good _ _ _ _ hgood)

theorem selOuter_good (τ : Nat → Nat) (n : Nat) :
    ∀ K i d g, n - 1 - i = K → GoodGen g →
      GoodGen (selOuter τ n i d g).2 := by
  intro K
  induction K with
  | zero =>
    intro i d g hK hgood
    rw [selOuter_stop τ n i d g (by omega)]
    exact hgood
  | succ K ih =>
    intro i d g hK hgood
    have hg : i < n - 1 := by omega
    have hinner : GoodGen (selInner τ n i (i + 1) i d g).2 :=
      selInner_good τ n i d (n - (i + 1)) (i + 1) i g rfl hgood
    rw [selOuter, dif_pos hg]
    dsimp only
    by_cases hc : (selInner τ n i (i + 1) i d g).1 ≠ i
    · rw [if_pos hc]
      exact ih (i + 1) _ _ (by omega)
        (createStep_good _ _ _ _ (createStep_good _ _ _ _ hinner))
    · rw [if_neg hc]
      exact ih (i + 1) _ _ (by omega) (createStep_good _ _ _ _ hinner)

theorem insInner_good (τ : Nat → Nat) (i : Nat) (key : Int) :
    ∀ jp d g, GoodGen g → GoodGen (insInner τ i key jp d g).2.2 := by
  intro jp
  induction jp with
  | zero =>
    intro d g hgood
    rw [insInner_stop τ i key 0 d g (by intro h; omega)]
    exact hgood
  | succ jp0 ih =>
    intro d g hgood
    by_cases hgt : getE d jp0 > key
    · have hg : 1 ≤ jp0 + 1 ∧ getE d (jp0 + 1 - 1) > key := by
        constructor
        · omega
        · simpa using hgt
      rw [insInner, dif_pos hg]
      have hsimp : jp0 + 1 - 1 = jp0 := by omega
      rw [hsimp]
      exact ih _ _ (createStep_good _ _ _ _ (createStep_good _ _ _ _ hgood))
    · have hg : ¬ (1 ≤ jp0 + 1 ∧ getE d (jp0 + 1 - 1) > key) := by
        intro hcon
        apply hgt
        simpa using hcon.2
      rw [insInner_stop τ i key (jp0 + 1) d g hg]
      exact hgood

theorem insOuter_good (τ : Nat → Nat) (n : Nat) :
    ∀ K i d g, n - i = K → GoodGen g →
      GoodGen (insOuter τ n i d g).2 := by
  intro K
  induction K with
  | zero =>
    intro i d g hK hgood
    rw [insOuter_stop τ n i d g (by omega)]
    exact hgood
  | succ K ih =>
    intro i d g hK hgood
    have hg : i < n := by omega
    rw [insOuter, dif_pos hg]
    dsimp only
    exact ih (i + 1) _ _ (by omega)
      (createStep_good _ _ _ _ (createStep_good _ _ _ _
        (insInner_good τ i (getE d i) i d _
          (createStep_good _ _ _ _ hgood))))

/-- From the generator-state invariant: the emitted sequence numbers are
exactly `1..N` and the step ids are pairwise distinct. -/
theorem goodGen_props {g : GenState} (h : GoodGen g) :
    g.steps.map (fun s => s.sequenceNumber) = List.range' 1 g.steps.length ∧
    g.steps.Pairwise (fun a b => a.stepId ≠ b.stepId) := by
  obtain ⟨_, _, h3⟩ := h
  constructor
  · apply List.ext_getElem
    · simp
    · intro k h1 h2
      rw [List.getElem_map, List.getElem_range']
      have hk : k < g.steps.length := by simpa using h1
      have := (h3 k hk).1
      rw [List.get_eq_getElem] at this
      rw [this]
      omega
  · rw [List.pairwise_iff_getElem]
    intro a b ha hb hab
    intro hcontra
    have h1 := (h3 a ha).2
    have h2 := (h3 b hb).2
    rw [List.get_eq_getElem] at h1 h2
    rw [hcontra] at h1
    rw [h1] at h2
    omega

/-! ## Run-level packaging for the three generators -/

theorem bubbleSortRun_steps (τ : Nat → Nat) (l : List Int)
    (h : ¬ l.length = 0) :
    ∃ gfin, bubbleSortRun τ l = .ok gfin.steps ∧ GoodGen gfin := by
  rw [bubbleSortRun]
  simp only [if_neg h]
  exact ⟨_, rfl, createStep_good _ _ _ _
    (bubbleOuter_good τ l.length (l.length - 1) 0 l GenState.init rfl goodGen_init)⟩

theorem selectionSortRun_steps (τ : Nat → Nat) (l : List Int)
    (h : ¬ l.length = 0) :
    ∃ gfin, selectionSortRun τ l = .ok gfin.steps ∧ GoodGen gfin := by
  rw [selectionSortRun]
  simp only [if_neg h]
  exact ⟨_, rfl, createStep_good _ _ _ _
    (selOuter_good τ l.length (l.length - 1) 0 l GenState.init rfl goodGen_init)⟩

theorem insertionSortRun_steps (τ : Nat → Nat) (l : List Int)
    (h : ¬ l.length = 0) :
    ∃ gfin, insertionSortRun τ l = .ok gfin.steps ∧ GoodGen gfin := by
  rw [insertionSortRun]
  simp only [if_neg h]
  exact ⟨_, rfl, createStep_good _ _ _ _
    (insOuter_good τ l.length (l.length - 1) 1 l GenState.init
      (by omega) goodGen_init)⟩

/-! ## Claims C1, C2, C3 -/

/-- Claim C1: for each of the three algorithm variants (bubble, selection,
insertion) and every non-empty integer input sequence, the generated step
list is non-empty and the final step's `arrayState.data` is a permutation of
the input arranged in non-decreasing (ascending) order. -/
theorem claim_C1_generator_sorts (τ : Nat → Nat) (l : List Int) (h : l ≠ []) :
    (∃ ss, bubbleSortRun τ l = .ok ss ∧ ss ≠ [] ∧
      ∃ fin, ss.getLast? = some fin ∧
        fin.arrayState.data.Perm l ∧ fin.arrayState.data.Pairwise (· ≤ ·)) ∧
    (∃ ss, selectionSortRun τ l = .ok ss ∧ ss ≠ [] ∧
      ∃ fin, ss.getLast? = some fin ∧
        fin.arrayState.data.Perm l ∧ fin.arrayState.data.Pairwise (· ≤ ·)) ∧
    (∃ ss, insertionSortRun τ l = .ok ss ∧ ss ≠ [] ∧
      ∃ fin, ss.getLast? = some fin ∧
        fin.arrayState.data.Perm l ∧ fin.arrayState.data.Pairwise (· ≤ ·)) :=
  ⟨bubbleSortRun_correct τ l h, selectionSortRun_correct τ l h,
    insertionSortRun_correct τ l h⟩

/-- Witness for C1 at the concrete input `[3, 1, 2]`. -/
theorem claim_C1_witness :
    (([3, 1, 2] : List Int) ≠ []) ∧
    ((∃ ss, bubbleSortRun (fun _ => 0) [3, 1, 2] = .ok ss ∧ ss ≠ [] ∧
      ∃ fin, ss.getLast? = some fin ∧
        fin.arrayState.data.Perm [3, 1, 2] ∧
        fin.arrayState.data.Pairwise (· ≤ ·)) ∧
    (∃ ss, selectionSortRun (fun _ => 0) [3, 1, 2] = .ok ss ∧ ss ≠ [] ∧
      ∃ fin, ss.getLast? = some fin ∧
        fin.arrayState.data.Perm [3, 1, 2] ∧
        fin.arrayState.data.Pairwise (· ≤ ·)) ∧
    (∃ ss, insertionSortRun (fun _ => 0) [3, 1, 2] = .ok ss ∧ ss ≠ [] ∧
      ∃ fin, ss.getLast? = some fin ∧
        fin.arrayState.data.Perm [3, 1, 2] ∧
        fin.arrayState.data.Pairwise (· ≤ ·))) :=
  ⟨by decide, claim_C1_generator_sorts (fun _ => 0) [3, 1, 2] (by decide)⟩

/-- Claim C2: for every algorithm variant, generating steps from an empty
input fails with the `InvalidInputError` of the error taxonomy (the
`throw new Error('無法對空陣列進行排序')` guard) before any step is
produced. -/
theorem claim_C2_empty_input (τ : Nat → Nat) :
    bubbleSortRun τ [] = .error .invalidInput ∧
    selectionSortRun τ [] = .error .invalidInput ∧
    insertionSortRun τ [] = .error .invalidInput :=
  ⟨rfl, rfl, rfl⟩

/-- Claim C3: for each algorithm variant and every non-empty input, the
generated steps' sequence numbers are exactly `1..N` (strictly increasing by
one, no gaps or duplicates) and the step ids are pairwise distinct. -/
theorem claim_C3_steps_wellformed (τ : Nat → Nat) (l : List Int) (h : l ≠ []) :
    (∃ ss, bubbleSortRun τ l = .ok ss ∧
      ss.map (fun s => s.sequenceNumber) = List.range' 1 ss.length ∧
      ss.Pairwise (fun a b => a.stepId ≠ b.stepId)) ∧
    (∃ ss, selectionSortRun τ l = .ok ss ∧
      ss.map (fun s => s.sequenceNumber) = List.range' 1 ss.length ∧
      ss.Pairwise (fun a b => a.stepId ≠ b.stepId)) ∧
    (∃ ss, insertionSortRun τ l = .ok ss ∧
      ss.map (fun s => s.sequenceNumber) = List.range' 1 ss.length ∧
      ss.Pairwise (fun a b => a.stepId ≠ b.stepId)) := by
  have h' : ¬ l.length = 0 := by simpa using h
  obtain ⟨g1, e1, good1⟩ := bubbleSortRun_steps τ l h'
  obtain ⟨g2, e2, good2⟩ := selectionSortRun_steps τ l h'
  obtain ⟨g3, e3, good3⟩ := insertionSortRun_steps τ l h'
  exact ⟨⟨g1.steps, e1, (goodGen_props good1).1, (goodGen_props good1).2⟩,
    ⟨g2.steps, e2, (goodGen_props good2).1, (goodGen_props good2).2⟩,
    ⟨g3.steps, e3, (goodGen_props good3).1, (goodGen_props good3).2⟩⟩

/-- Witness for C3 at the concrete input `[2, 1]`. -/
theorem claim_C3_witness :
    (([2, 1] : List Int) ≠ []) ∧
    ((∃ ss, bubbleSortRun (fun _ => 0) [2, 1] = .ok ss ∧
      ss.map (fun s => s.sequenceNumber) = List.range' 1 ss.length ∧
      ss.Pairwise (fun a b => a.stepId ≠ b.stepId)) ∧
    (∃ ss, selectionSortRun (fun _ => 0) [2, 1] = .ok ss ∧
      ss.map (fun s => s.sequenceNumber) = List.range' 1 ss.length ∧
      ss.Pairwise (fun a b => a.stepId ≠ b.stepId)) ∧
    (∃ ss, insertionSortRun (fun _ => 0) [2, 1] = .ok ss ∧
      ss.map (fun s => s.sequenceNumber) = List.range' 1 ss.length ∧
      ss.Pairwise (fun a b => a.stepId ≠ b.stepId))) :=
  ⟨by decide, claim_C3_steps_wellformed (fun _ => 0) [2, 1] (by decide)⟩

/-! ## The playback state machine (`SortingPlayer`, themeManager.ts)

The player's `window.setTimeout` / `clearTimeout` usage is modelled
explicitly: `pending` is the list of live timeouts of the JavaScript event
loop, each carrying the id returned by `setTimeout`; `playTimer` is the
`this.playTimer` field.  A timeout fires only while it is pending, and
firing removes it.  Rendering and event callbacks have no effect on the
player's own state and are omitted. -/

/-- `PlayerState` from `useSortingPlayer.ts`. -/
inductive PlayerSt where
  | idle
  | playing
  | paused
  | completed
deriving DecidableEq

/-- The callback a live timeout would run: the recursive auto-advance of
`scheduleNextStep`, or the loop-mode restart scheduled by `complete()`. -/
inductive TimerKind where
  | advance (delay : ℚ)
  | loopRestart (delay : ℚ)
deriving DecidableEq

/-- A live timeout: its `setTimeout` id and callback. -/
structure PTimer where
  tid : Nat
  kind : TimerKind
deriving DecidableEq

/-- The `SortingPlayer` instance together with its live timeouts. -/
structure Player where
  steps : List AlgorithmStep
  currentStepIndex : Nat
  state : PlayerSt
  playTimer : Option Nat
  playbackSpeed : ℚ
  autoPlay : Bool
  loopMode : Bool
  pending : List PTimer
  nextTid : Nat
deriving DecidableEq

/-- The typed errors thrown by the player (`Error(...)` in the source; names
follow the spec's taxonomy). -/
inductive PlayerErr where
  | emptySteps
  | indexOutOfRange
  | invalidArgument
deriving DecidableEq

/-- `setState`: state-change callbacks are outside the model. -/
def Player.setSt (p : Player) (s : PlayerSt) : Player := { p with state := s }

/-- `clearTimer()`: `clearTimeout(this.playTimer)` cancels the timeout if it
is still pending; `this.playTimer = null`. -/
def Player.clearTimer (p : Player) : Player :=
  match p.playTimer with
  | some t =>
    { p with
      pending := p.pending.filter (fun x => x.tid ≠ t)
      playTimer := none }
  | none => p

/-- `scheduleNextStep()`: guard on `playing`, then
`this.playTimer = window.setTimeout(..., 600 / playbackSpeed)`. -/
def Player.scheduleNextStep (p : Player) : Player :=
  if p.state ≠ .playing then p
  else
    { p with
      pending := p.pending ++ [⟨p.nextTid, .advance (600 / p.playbackSpeed)⟩]
      playTimer := some p.nextTid
      nextTid := p.nextTid + 1 }

/-- `complete()`: clear the timer, enter `completed`, and — in loop mode —
schedule an untracked 1000 ms restart timeout. -/
def Player.complete (p : Player) : Player :=
  let p := p.clearTimer
  let p := p.setSt .completed
  if p.loopMode then
    { p with
      pending := p.pending ++ [⟨p.nextTid, .loopRestart 1000⟩]
      nextTid := p.nextTid + 1 }
  else p

/-- `nextStep()`: advance below the last index, otherwise `complete()`. -/
def Player.nextStepP (p : Player) : Player :=
  if p.currentStepIndex < p.steps.length - 1 then
    { p with currentStepIndex := p.currentStepIndex + 1 }
  else p.complete

/-- `previousStep()`: step back above index 0, otherwise do nothing. -/
def Player.previousStepP (p : Player) : Player :=
  if 0 < p.currentStepIndex then
    { p with currentStepIndex := p.currentStepIndex - 1 }
  else p

/-- `reset()`: back to the first step, `idle`. -/
def Player.resetP (p : Player) : Player :=
  ({ p with currentStepIndex := 0 } : Player).setSt .idle

/-- `play()`: no-op while `playing`; reset first when restarting a
completed loop; then enter `playing` and schedule the advance. -/
def Player.playP (p : Player) : Player :=
  if p.state = .playing then p
  else
    let p := if p.state = .completed ∧ p.loopMode = true then p.resetP else p
    (p.setSt .playing).scheduleNextStep

/-- `pause()`: no-op unless `playing`; otherwise `paused` and cancel the
pending advance. -/
def Player.pauseP (p : Player) : Player :=
  if p.state ≠ .playing then p
  else (p.setSt .paused).clearTimer

/-- `stop()`: `pause()` then `reset()`. -/
def Player.stopP (p : Player) : Player := p.pauseP.resetP

/-- `jumpToStep(stepIndex)`: throws for an out-of-range target.  The
argument is an `Int` because the source accepts any number. -/
def Player.jumpToStepP (p : Player) (i : Int) : Except PlayerErr Player :=
  if i < 0 ∨ (p.steps.length : Int) ≤ i then .error .indexOutOfRange
  else .ok { p with currentStepIndex := i.toNat }

/-- `setPlaybackSpeed(speed)`: throws outside `[0.1, 5.0]`; stores the
speed; while `playing`, clears and reschedules the advance timer. -/
def Player.setPlaybackSpeedP (p : Player) (x : ℚ) : Except PlayerErr Player :=
  if x < 1/10 ∨ 5 < x then .error .invalidArgument
  else
    let p := { p with playbackSpeed := x }
    .ok (if p.state = .playing then p.clearTimer.scheduleNextStep else p)

/-- `setLoopMode(enabled)`. -/
def Player.setLoopModeP (p : Player) (b : Bool) : Player :=
  { p with loopMode := b }

/-- `loadSteps(steps)`: throws on `null` (modelled as `none`) or empty
input; otherwise installs the list, resets the cursor, enters `idle`, and
auto-plays if configured. -/
def Player.loadStepsP (p : Player) (s : Option (List AlgorithmStep)) :
    Except PlayerErr Player :=
  match s with
  | none => .error .emptySteps
  | some l =>
    if l.isEmpty then .error .emptySteps
    else
      let p := ({ p with steps := l, currentStepIndex := 0 } : Player).setSt .idle
      .ok (if p.autoPlay then p.playP else p)

/-- The event loop fires a pending timeout: the timeout is removed and its
callback runs.  An `advance` timeout runs `nextStep()` and, still
`playing`, schedules the next advance; a `loopRestart` timeout runs
`reset(); play()`. -/
def Player.fireTimer (p : Player) (t : Nat) : Player :=
  match p.pending.find? (fun x => x.tid == t) with
  | none => p
  | some tm =>
    let p := { p with pending := p.pending.filter (fun x => x.tid ≠ t) }
    match tm.kind with
    | .advance _ =>
      let p := p.nextStepP
      if p.state = .playing then p.scheduleNextStep else p
    | .loopRestart _ => p.resetP.playP

/-- One externally observable session event: a public method call or the
firing of a live timeout. -/
inductive POp where
  | play
  | pause
  | stop
  | next
  | prev
  | jump (i : Int)
  | speed (x : ℚ)
  | loop (b : Bool)
  | fire (t : Nat)
deriving DecidableEq

/-- Apply one event; a thrown error leaves the player unchanged (every
throw in the source happens before any field is written). -/
def Player.applyOp (p : Player) (o : POp) : Player :=
  match o with
  | .play => p.playP
  | .pause => p.pauseP
  | .stop => p.stopP
  | .next => p.nextStepP
  | .prev => p.previousStepP
  | .jump i =>
    match p.jumpToStepP i with
    | .ok q => q
    | .error _ => p
  | .speed x =>
    match p.setPlaybackSpeedP x with
    | .ok q => q
    | .error _ => p
  | .loop b => p.setLoopModeP b
  | .fire t => p.fireTimer t

/-- Run a finite sequence of session events. -/
def Player.runOps (p : Player) (l : List POp) : Player := l.foldl Player.applyOp p

/-! ## Player: basic preservation lemmas -/

theorem Player.steps_clearTimer (p : Player) : p.clearTimer.steps = p.steps := by
  unfold Player.clearTimer
  split <;> rfl

theorem Player.steps_schedule (p : Player) :
    p.scheduleNextStep.steps = p.steps := by
  unfold Player.scheduleNextStep
  split <;> rfl

theorem Player.steps_complete (p : Player) : p.complete.steps = p.steps := by
  simp only [Player.complete, Player.setSt]
  split <;> simp [Player.steps_clearTimer]

theorem Player.steps_nextStepP (p : Player) : p.nextStepP.steps = p.steps := by
  unfold Player.nextStepP
  split
  · rfl
  · exact Player.steps_complete p

theorem Player.steps_playP (p : Player) : p.playP.steps = p.steps := by
  unfold Player.playP
  split
  · rfl
  · rw [Player.steps_schedule]
    split <;> rfl

theorem Player.steps_pauseP (p : Player) : p.pauseP.steps = p.steps := by
  unfold Player.pauseP
  split
  · rfl
  · rw [Player.steps_clearTimer]
    rfl

theorem Player.steps_fireTimer (p : Player) (t : Nat) :
    (p.fireTimer t).steps = p.steps := by
  unfold Player.fireTimer
  split
  · rfl
  · next tm _ =>
    cases htm : tm.kind with
    | advance d =>
      dsimp only
      split
      · simp [Player.steps_schedule, Player.steps_nextStepP]
      · simp [Player.steps_nextStepP]
    | loopRestart d =>
      dsimp only
      simp [Player.steps_playP, Player.resetP, Player.setSt]

theorem Player.steps_applyOp (p : Player) (o : POp) :
    (p.applyOp o).steps = p.steps := by
  cases o with
  | play => exact Player.steps_playP p
  | pause => exact Player.steps_pauseP p
  | stop =>
    show (p.pauseP.resetP).steps = p.steps
    rw [show p.pauseP.resetP.steps = p.pauseP.steps from rfl, Player.steps_pauseP]
  | next => exact Player.steps_nextStepP p
  | prev =>
    show p.previousStepP.steps = p.steps
    unfold Player.previousStepP
    split <;> rfl
  | jump i =>
    show (match p.jumpToStepP i with | .ok q => q | .error _ => p).steps = p.steps
    unfold Player.jumpToStepP
    by_cases hc : (i < 0 ∨ (p.steps.length : Int) ≤ i)
    · rw [if_pos hc]
    · rw [if_neg hc]
  | speed x =>
    show (match p.setPlaybackSpeedP x with | .ok q => q | .error _ => p).steps = p.steps
    unfold Player.setPlaybackSpeedP
    by_cases hc : (x < 1/10 ∨ 5 < x)
    · rw [if_pos hc]
    · rw [if_neg hc]
      dsimp only
      split
      · simp [Player.steps_schedule, Player.steps_clearTimer]
      · rfl
  | loop b => rfl
  | fire t => exact Player.steps_fireTimer p t

theorem Player.idx_complete (p : Player) :
    p.complete.currentStepIndex = p.currentStepIndex := by
  simp only [Player.complete, Player.setSt]
  split <;> simp [Player.clearTimer] <;> split <;> rfl

theorem Player.idx_schedule (p : Player) :
    p.scheduleNextStep.currentStepIndex = p.currentStepIndex := by
  unfold Player.scheduleNextStep
  split <;> rfl

theorem Player.idx_clearTimer (p : Player) :
    p.clearTimer.currentStepIndex = p.currentStepIndex := by
  unfold Player.clearTimer
  split <;> rfl

theorem Player.idx_nextStepP_bound (p : Player)
    (h : p.currentStepIndex ≤ p.steps.length - 1) :
    p.nextStepP.currentStepIndex ≤ p.steps.length - 1 := by
  unfold Player.nextStepP
  split
  · next hlt => simpa using by omega
  · rw [Player.idx_complete]
    exact h

theorem Player.idx_playP_bound (p : Player)
    (h : p.currentStepIndex ≤ p.steps.length - 1) :
    p.playP.currentStepIndex ≤ p.steps.length - 1 := by
  unfold Player.playP
  split
  · exact h
  · rw [Player.idx_schedule]
    split
    · show (0 : Nat) ≤ p.steps.length - 1
      omega
    · exact h

/-- The cursor bound `currentIndex ≤ len - 1` is preserved by every session
event. -/
theorem Player.idx_applyOp (p : Player) (o : POp)
    (h : p.currentStepIndex ≤ p.steps.length - 1) :
    (p.applyOp o).currentStepIndex ≤ p.steps.length - 1 := by
  cases o with
  | play => exact Player.idx_playP_bound p h
  | pause =>
    show p.pauseP.currentStepIndex ≤ p.steps.length - 1
    unfold Player.pauseP
    split
    · exact h
    · rw [Player.idx_clearTimer]
      exact h
  | stop =>
    show (0 : Nat) ≤ p.steps.length - 1
    omega
  | next => exact Player.idx_nextStepP_bound p h
  | prev =>
    show p.previousStepP.currentStepIndex ≤ p.steps.length - 1
    unfold Player.previousStepP
    split
    · dsimp only
      omega
    · exact h
  | jump i =>
    show (match p.jumpToStepP i with | .ok q => q | .error _ => p).currentStepIndex
      ≤ p.steps.length - 1
    unfold Player.jumpToStepP
    by_cases hc : (i < 0 ∨ (p.steps.length : Int) ≤ i)
    · rw [if_pos hc]
      exact h
    · rw [if_neg hc]
      dsimp only
      push_neg at hc
      omega
  | speed x =>
    show (match p.setPlaybackSpeedP x with | .ok q => q | .error _ => p).currentStepIndex
      ≤ p.steps.length - 1
    unfold Player.setPlaybackSpeedP
    by_cases hc : (x < 1/10 ∨ 5 < x)
    · rw [if_pos hc]
      exact h
    · rw [if_neg hc]
      dsimp only
      split
      · rw [Player.idx_schedule, Player.idx_clearTimer]
        exact h
      · exact h
  | loop b => exact h
  | fire t =>
    show (p.fireTimer t).currentStepIndex ≤ p.steps.length - 1
    unfold Player.fireTimer
    split
    · exact h
    · next tm _ =>
      cases htm : tm.kind with
      | advance d =>
        dsimp only
        have hb := Player.idx_nextStepP_bound
          { p with pending := p.pending.filter (fun x => x.tid ≠ t) } h
        split
        · rw [Player.idx_schedule]
          exact hb
        · exact hb
      | loopRestart d =>
        dsimp only
        have h0 : (({ p with pending := p.pending.filter (fun x => x.tid ≠ t) } : Player).resetP).currentStepIndex
            ≤ (({ p with pending := p.pending.filter (fun x => x.tid ≠ t) } : Player).resetP).steps.length - 1 := by
          show (0 : Nat) ≤ _
          omega
        have := Player.idx_playP_bound _ h0
        simpa using this

theorem Player.runOps_steps_idx (p : Player) (ops : List POp)
    (h : p.currentStepIndex ≤ p.steps.length - 1) :
    (p.runOps ops).steps = p.steps ∧
    (p.runOps ops).currentStepIndex ≤ p.steps.length - 1 := by
  induction ops generalizing p with
  | nil => exact ⟨rfl, h⟩
  | cons o rest ih =>
    have hs := Player.steps_applyOp p o
    have hi := Player.idx_applyOp p o h
    obtain ⟨ih1, ih2⟩ := ih (p.applyOp o) (by rw [hs]; exact hi)
    refine ⟨?_, ?_⟩
    · show ((p.applyOp o).runOps rest).steps = p.steps
      rw [ih1, hs]
    · show ((p.applyOp o).runOps rest).currentStepIndex ≤ p.steps.length - 1
      rw [hs] at ih2
      exact ih2

/-- `nextStep()` can only newly enter `completed` from the last index. -/
theorem Player.nextStep_completes_at_last (q : Player)
    (hq : q.currentStepIndex ≤ q.steps.length - 1)
    (hs : q.state ≠ .completed) (hc : q.nextStepP.state = .completed) :
    q.currentStepIndex = q.steps.length - 1 ∧
    q.nextStepP.currentStepIndex = q.steps.length - 1 := by
  unfold Player.nextStepP at hc ⊢
  split at hc
  · exact absurd hc hs
  · next hge =>
    rw [if_neg hge]
    rw [Player.idx_complete]
    omega

/-! ## Concrete players used by counterexamples and witnesses -/

/-- A fixed, arbitrary step used to populate concrete step lists. -/
def dummyStep : AlgorithmStep :=
  { stepId := ⟨"T", 0, 1⟩
    sequenceNumber := 1
    arrayState :=
      { data := [1], highlightedIndices := [], comparisonPair := none,
        swapPair := none, sortedRegions := [] }
    operation := mkOp .compare "x" "O(1)" "O(1)"
    visualHints := getVisualHints .compare }

/-- A freshly loaded player holding `k` steps (cursor 0, `idle`, speed 1,
no timers), with the given loop-mode flag. -/
def mkPlayer (k : Nat) (loop : Bool) : Player :=
  { steps := List.replicate k dummyStep
    currentStepIndex := 0
    state := .idle
    playTimer := none
    playbackSpeed := 1
    autoPlay := false
    loopMode := loop
    pending := []
    nextTid := 0 }

/-! ## Claim C4 -/

/-- Claim C4 counterexample: after `next, next, next, prev` on a freshly
loaded 3-step player, the state is `completed` while `currentIndex = 1`,
which is not the last index — so "`Completed` iff `currentIndex = len-1`
and playback ran to the end" is false as stated. -/
theorem claim_C4_counterexample :
    ((mkPlayer 3 false).runOps [.next, .next, .next, .prev]).state = .completed ∧
    ((mkPlayer 3 false).runOps [.next, .next, .next, .prev]).currentStepIndex = 1 ∧
    (mkPlayer 3 false).steps.length - 1 = 2 ∧ (1 : Nat) ≠ 2 := by
  refine ⟨?_, ?_, ?_, ?_⟩ <;> decide

/-- Claim C4 (amended): over any finite sequence of `play`, `pause`,
`stop`, `next`, `prev`, `jump`, speed/loop changes and timer firings, the
step list is unchanged and `currentIndex` stays within `[0, len-1]`; and a
`nextStep()` call (external or timer-driven) that newly enters `completed`
does so exactly at `currentIndex = len - 1` and keeps the cursor there.
(`Completed` at an interior index is reachable afterwards, via
`previousStep`/`jumpToStep`, which do not leave `completed` — see the
counterexample.) -/
theorem claim_C4_playback_invariant (p : Player) (ops : List POp)
    (h0 : p.currentStepIndex ≤ p.steps.length - 1) :
    ((p.runOps ops).steps = p.steps ∧
     (p.runOps ops).currentStepIndex ≤ p.steps.length - 1) ∧
    (∀ q : Player, q.currentStepIndex ≤ q.steps.length - 1 →
      q.state ≠ .completed → q.nextStepP.state = .completed →
      q.currentStepIndex = q.steps.length - 1 ∧
      q.nextStepP.currentStepIndex = q.steps.length - 1) :=
  ⟨Player.runOps_steps_idx p ops h0,
    fun q hq hs hc => Player.nextStep_completes_at_last q hq hs hc⟩

/-- Witness for the amended C4 on a concrete 3-step player and event
sequence. -/
theorem claim_C4_witness :
    (mkPlayer 3 false).currentStepIndex ≤ (mkPlayer 3 false).steps.length - 1 ∧
    (((mkPlayer 3 false).runOps [.play, .fire 0, .pause, .next, .prev]).steps
        = (mkPlayer 3 false).steps ∧
      ((mkPlayer 3 false).runOps [.play, .fire 0, .pause, .next, .prev]).currentStepIndex
        ≤ (mkPlayer 3 false).steps.length - 1) :=
  ⟨by decide,
    (claim_C4_playback_invariant (mkPlayer 3 false)
      [.play, .fire 0, .pause, .next, .prev] (by decide)).1⟩

/-! ## Claim C5 -/

theorem Player.state_schedule (p : Player) :
    p.scheduleNextStep.state = p.state := by
  unfold Player.scheduleNextStep
  split <;> rfl

/-- Claim C5 counterexample: from `completed` with loop mode disabled,
`play()` still transitions to `playing` (the guard only controls the
`reset()`, not the state change), refuting "otherwise it does not leave
Completed". -/
theorem claim_C5_counterexample :
    ({ mkPlayer 3 false with state := .completed, currentStepIndex := 2 }
        : Player).state = .completed ∧
    ({ mkPlayer 3 false with state := .completed, currentStepIndex := 2 }
        : Player).loopMode = false ∧
    ({ mkPlayer 3 false with state := .completed, currentStepIndex := 2 }
        : Player).playP.state = .playing := by
  refine ⟨?_, ?_, ?_⟩ <;> decide

/-- Claim C5 (amended): `play()` transitions `Idle` and `Paused` to
`Playing`; from `Completed` it always transitions to `Playing`, and when
loop mode is enabled it additionally resets the cursor to 0 first; when
already `Playing` it is a no-op. -/
theorem claim_C5_play_transitions (p : Player) :
    ((p.state = .idle ∨ p.state = .paused) → p.playP.state = .playing) ∧
    (p.state = .completed → p.playP.state = .playing ∧
      (p.loopMode = true → p.playP.currentStepIndex = 0)) ∧
    (p.state = .playing → p.playP = p) := by
  refine ⟨?_, ?_, ?_⟩
  · intro hs
    unfold Player.playP
    rw [if_neg (by rcases hs with h | h <;> simp [h])]
    rw [Player.state_schedule]
    rfl
  · intro hs
    unfold Player.playP
    rw [if_neg (by simp [hs])]
    constructor
    · rw [Player.state_schedule]
      rfl
    · intro hl
      rw [Player.idx_schedule, if_pos ⟨hs, hl⟩]
      rfl
  · intro hs
    unfold Player.playP
    rw [if_pos hs]

/-- Witness for the amended C5 on a concrete idle player. -/
theorem claim_C5_witness :
    ((mkPlayer 3 false).state = .idle ∨ (mkPlayer 3 false).state = .paused) ∧
    (mkPlayer 3 false).playP.state = .playing :=
  ⟨Or.inl (by decide),
    (claim_C5_play_transitions (mkPlayer 3 false)).1 (Or.inl (by decide))⟩

/-! ## Claim C6 (counterexample side: the `SortingPlayer` imposes no
`Playing` guard on `nextStep`/`previousStep`) -/

/-- Claim C6 counterexample: with the player `playing` at index 0 of three
steps, an external `nextStep()` call neither fails (the method contains no
throw) nor leaves the cursor unchanged: it advances to index 1. -/
theorem claim_C6_counterexample :
    ({ mkPlayer 3 false with state := .playing } : Player).state = .playing ∧
    ({ mkPlayer 3 false with state := .playing } : Player).currentStepIndex = 0 ∧
    ({ mkPlayer 3 false with state := .playing }
        : Player).nextStepP.currentStepIndex = 1 ∧
    ({ mkPlayer 3 false with state := .playing }
        : Player).nextStepP.state = .playing := by
  refine ⟨?_, ?_, ?_, ?_⟩ <;> decide

/-! ## Claim C7: pending-advance discipline -/

/-- Timer discipline with loop mode off: while `playing` exactly one
advance timeout is pending and it is the tracked one; otherwise no timeout
is pending at all. -/
def AdvInv (p : Player) : Prop :=
  p.loopMode = false ∧
  (p.state = .playing → ∃ tid dl, p.playTimer = some tid ∧
    p.pending = [⟨tid, .advance dl⟩]) ∧
  (p.state ≠ .playing → p.pending = [])

theorem Player.clearTimer_state (p : Player) : p.clearTimer.state = p.state := by
  unfold Player.clearTimer
  split <;> rfl

theorem Player.clearTimer_loop (p : Player) :
    p.clearTimer.loopMode = p.loopMode := by
  unfold Player.clearTimer
  split <;> rfl

theorem Player.clearTimer_nextTid (p : Player) :
    p.clearTimer.nextTid = p.nextTid := by
  unfold Player.clearTimer
  split <;> rfl

theorem Player.clearTimer_speed (p : Player) :
    p.clearTimer.playbackSpeed = p.playbackSpeed := by
  unfold Player.clearTimer
  split <;> rfl

theorem Player.clearTimer_single {p : Player} {tid : Nat} {k : TimerKind}
    (hpt : p.playTimer = some tid) (hpend : p.pending = [⟨tid, k⟩]) :
    p.clearTimer.pending = [] ∧ p.clearTimer.playTimer = none := by
  unfold Player.clearTimer
  rw [hpt]
  dsimp only
  rw [hpend]
  simp

theorem Player.clearTimer_empty {p : Player} (hpend : p.pending = []) :
    p.clearTimer.pending = [] := by
  unfold Player.clearTimer
  split
  · dsimp only
    rw [hpend]
    rfl
  · exact hpend

theorem Player.advInv_playP {p : Player} (h : AdvInv p) : AdvInv p.playP := by
  obtain ⟨hl, hp, hn⟩ := h
  unfold Player.playP
  by_cases hs : p.state = .playing
  · rw [if_pos hs]
    exact ⟨hl, hp, hn⟩
  · have hpend : p.pending = [] := hn hs
    rw [if_neg hs,
      if_neg (by rintro ⟨_, hcl⟩; rw [hl] at hcl; exact Bool.false_ne_true hcl)]
    unfold Player.scheduleNextStep Player.setSt
    rw [if_neg (by simp)]
    refine ⟨hl, ?_, ?_⟩
    · intro _
      refine ⟨p.nextTid, 600 / p.playbackSpeed, rfl, ?_⟩
      show p.pending ++ _ = _
      rw [hpend]
      rfl
    · intro hcon
      exact absurd rfl hcon

theorem Player.advInv_pauseP {p : Player} (h : AdvInv p) : AdvInv p.pauseP := by
  obtain ⟨hl, hp, hn⟩ := h
  unfold Player.pauseP
  by_cases hs : p.state = .playing
  · rw [if_neg (by simpa using hs)]
    obtain ⟨tid, dl, hpt, hpend⟩ := hp hs
    have hcl := @Player.clearTimer_single (p.setSt .paused) tid
      (.advance dl) hpt hpend
    refine ⟨?_, ?_, ?_⟩
    · rw [Player.clearTimer_loop]
      exact hl
    · intro hcon
      rw [Player.clearTimer_state] at hcon
      exact absurd hcon (by simp [Player.setSt])
    · intro _
      exact hcl.1
  · rw [if_pos hs]
    exact ⟨hl, hp, hn⟩

theorem Player.pauseP_pending_empty {p : Player} (h : AdvInv p) :
    p.pauseP.pending = [] := by
  obtain ⟨al, ap, an⟩ := Player.advInv_pauseP h
  apply an
  unfold Player.pauseP
  split
  · next hns => exact hns
  · rw [Player.clearTimer_state]
    simp [Player.setSt]

theorem Player.advInv_nextStepP {p : Player} (h : AdvInv p) :
    AdvInv p.nextStepP := by
  obtain ⟨hl, hp, hn⟩ := h
  unfold Player.nextStepP
  split
  · exact ⟨hl, hp, hn⟩
  · unfold Player.complete
    have hcl : p.clearTimer.pending = [] := by
      by_cases hs : p.state = .playing
      · obtain ⟨tid, dl, hpt, hpend⟩ := hp hs
        exact (Player.clearTimer_single hpt hpend).1
      · exact Player.clearTimer_empty (hn hs)
    rw [if_neg (by
      show ¬ (p.clearTimer.setSt .completed).loopMode = true
      show ¬ p.clearTimer.loopMode = true
      rw [Player.clearTimer_loop, hl]
      simp)]
    refine ⟨?_, ?_, ?_⟩
    · show p.clearTimer.loopMode = false
      rw [Player.clearTimer_loop]
      exact hl
    · intro hcon
      exact absurd hcon (by simp [Player.setSt])
    · intro _
      exact hcl

theorem Player.complete_noloop {q : Player} (hl : q.loopMode = false) :
    q.complete = q.clearTimer.setSt .completed := by
  unfold Player.complete
  dsimp only
  rw [if_neg (by
    show ¬ q.clearTimer.loopMode = true
    rw [Player.clearTimer_loop, hl]
    simp)]

/-- After an advance timeout has been removed from an otherwise empty
pending list, the timeout callback (`nextStep()` plus conditional
rescheduling) re-establishes the timer discipline. -/
theorem Player.advInv_afterAdvance (q : Player) (hl : q.loopMode = false)
    (hpend : q.pending = []) :
    AdvInv (if q.nextStepP.state = .playing
      then q.nextStepP.scheduleNextStep else q.nextStepP) := by
  unfold Player.nextStepP
  split
  · by_cases hs : q.state = .playing
    · rw [if_pos (by simpa using hs)]
      unfold Player.scheduleNextStep
      rw [if_neg (by simpa using hs)]
      refine ⟨hl, ?_, ?_⟩
      · intro _
        refine ⟨q.nextTid, 600 / q.playbackSpeed, rfl, ?_⟩
        show q.pending ++ _ = _
        rw [hpend]
        rfl
      · intro hcon
        exact absurd (by simpa using hs) hcon
    · rw [if_neg (by simpa using hs)]
      refine ⟨hl, ?_, ?_⟩
      · intro hcon
        exact absurd (by simpa using hcon) hs
      · intro _
        exact hpend
  · rw [Player.complete_noloop hl]
    rw [if_neg (by simp [Player.setSt])]
    refine ⟨?_, ?_, ?_⟩
    · show q.clearTimer.loopMode = false
      rw [Player.clearTimer_loop]
      exact hl
    · intro hcon
      exact absurd hcon (by simp [Player.setSt])
    · intro _
      exact Player.clearTimer_empty hpend

theorem Player.advInv_fireTimer {p : Player} (t : Nat) (h : AdvInv p) :
    AdvInv (p.fireTimer t) := by
  obtain ⟨hl, hp, hn⟩ := h
  unfold Player.fireTimer
  by_cases hs : p.state = .playing
  · obtain ⟨tid, dl, hpt, hpend⟩ := hp hs
    rw [hpend]
    by_cases ht : tid = t
    · have hfind : List.find? (fun x => x.tid == t)
          [(⟨tid, .advance dl⟩ : PTimer)] = some ⟨tid, .advance dl⟩ := by
        simp [List.find?_cons, ht]
      rw [hfind]
      dsimp only
      have hl1 : ({ p with
          pending := List.filter (fun x => x.tid ≠ t)
            [(⟨tid, .advance dl⟩ : PTimer)] } : Player).loopMode = false := hl
      have hp1 : ({ p with
          pending := List.filter (fun x => x.tid ≠ t)
            [(⟨tid, .advance dl⟩ : PTimer)] } : Player).pending = [] := by
        show List.filter (fun x => x.tid ≠ t) [(⟨tid, .advance dl⟩ : PTimer)] = []
        simp [ht]
      exact Player.advInv_afterAdvance _ hl1 hp1
    · have hfind : List.find? (fun x => x.tid == t)
          [(⟨tid, .advance dl⟩ : PTimer)] = none := by
        simp [List.find?_cons, ht]
      rw [hfind]
      exact ⟨hl, fun _ => ⟨tid, dl, hpt, hpend⟩, hn⟩
  · have hpend := hn hs
    rw [hpend]
    rw [show List.find? (fun x => x.tid == t) ([] : List PTimer) = none from rfl]
    exact ⟨hl, hp, hn⟩

/-- `AdvInv` is preserved by every session event other than switching loop
mode on. -/
theorem Player.advInv_applyOp (p : Player) (o : POp)
    (ho : o ≠ POp.loop true) (h : AdvInv p) : AdvInv (p.applyOp o) := by
  obtain ⟨hl, hp, hn⟩ := h
  cases o with
  | play => exact Player.advInv_playP ⟨hl, hp, hn⟩
  | pause => exact Player.advInv_pauseP ⟨hl, hp, hn⟩
  | stop =>
    show AdvInv p.pauseP.resetP
    obtain ⟨al, ap, an⟩ := Player.advInv_pauseP ⟨hl, hp, hn⟩
    have hpend : p.pauseP.pending = [] := Player.pauseP_pending_empty ⟨hl, hp, hn⟩
    refine ⟨al, ?_, ?_⟩
    · intro hcon
      exact absurd hcon (by simp [Player.resetP, Player.setSt])
    · intro _
      exact hpend
  | next => exact Player.advInv_nextStepP ⟨hl, hp, hn⟩
  | prev =>
    show AdvInv p.previousStepP
    unfold Player.previousStepP
    split
    · exact ⟨hl, hp, hn⟩
    · exact ⟨hl, hp, hn⟩
  | jump i =>
    show AdvInv (match p.jumpToStepP i with | .ok q => q | .error _ => p)
    unfold Player.jumpToStepP
    by_cases hc : (i < 0 ∨ (p.steps.length : Int) ≤ i)
    · rw [if_pos hc]
      exact ⟨hl, hp, hn⟩
    · rw [if_neg hc]
      exact ⟨hl, hp, hn⟩
  | speed x =>
    show AdvInv (match p.setPlaybackSpeedP x with | .ok q => q | .error _ => p)
    unfold Player.setPlaybackSpeedP
    by_cases hc : (x < 1/10 ∨ 5 < x)
    · rw [if_pos hc]
      exact ⟨hl, hp, hn⟩
    · rw [if_neg hc]
      dsimp only
      by_cases hs : p.state = .playing
      · rw [if_pos (by simpa using hs)]
        obtain ⟨tid, dl, hpt, hpend⟩ := hp hs
        have hcl := @Player.clearTimer_single
          ({ p with playbackSpeed := x } : Player) tid (.advance dl) hpt hpend
        unfold Player.scheduleNextStep
        rw [if_neg (by
          rw [Player.clearTimer_state]
          simpa using hs)]
        refine ⟨?_, ?_, ?_⟩
        · show ({ p with playbackSpeed := x } : Player).clearTimer.loopMode = false
          rw [Player.clearTimer_loop]
          exact hl
        · intro _
          refine ⟨({ p with playbackSpeed := x } : Player).clearTimer.nextTid,
            600 / ({ p with playbackSpeed := x } : Player).clearTimer.playbackSpeed,
            rfl, ?_⟩
          show ({ p with playbackSpeed := x } : Player).clearTimer.pending ++ _ = _
          rw [hcl.1]
          simp
        · intro hcon
          rw [Player.clearTimer_state] at hcon
          exact absurd (by simpa using hs) hcon
      · rw [if_neg (by simpa using hs)]
        exact ⟨hl, hp, hn⟩
  | loop b =>
    cases b with
    | false =>
      show AdvInv (p.setLoopModeP false)
      exact ⟨rfl, hp, hn⟩
    | true => exact absurd rfl ho
  | fire t => exact Player.advInv_fireTimer t ⟨hl, hp, hn⟩

theorem Player.advInv_runOps (p : Player) (ops : List POp)
    (ho : ∀ o ∈ ops, o ≠ POp.loop true) (h : AdvInv p) :
    AdvInv (p.runOps ops) := by
  induction ops generalizing p with
  | nil => exact h
  | cons o rest ih =>
    show AdvInv ((p.applyOp o).runOps rest)
    exact ih (p.applyOp o) (fun x hx => ho x (List.mem_cons_of_mem o hx))
      (Player.advInv_applyOp p o (ho o (List.mem_cons_self o rest)) h)

/-- Claim C7 counterexample: with loop mode on, `play` during the 1000 ms
loop-restart window and the later firing of the untracked restart timeout
leave two advance timeouts pending at once. -/
theorem claim_C7_counterexample :
    (mkPlayer 2 true).loopMode = true ∧
    (((mkPlayer 2 true).runOps
        [.play, .fire 0, .fire 1, .play, .fire 2]).pending.countP
      (fun t => match t.kind with
        | .advance _ => true
        | .loopRestart _ => false)) = 2 := by
  constructor <;> decide

/-- Claim C7 (amended): with loop mode disabled (and never switched on),
every state reachable by session events from a state satisfying the timer
discipline has at most one pending advance timeout; pause, stop and speed
changes cancel or replace it.  With loop mode enabled the untracked
loop-restart timeout of `complete()` breaks the bound (see the
counterexample). -/
theorem claim_C7_single_advance (p : Player) (ops : List POp)
    (hinv : AdvInv p) (ho : ∀ o ∈ ops, o ≠ POp.loop true) :
    ((p.runOps ops).pending.countP
      (fun t => match t.kind with
        | .advance _ => true
        | .loopRestart _ => false)) ≤ 1 := by
  obtain ⟨_, hp, hn⟩ := Player.advInv_runOps p ops ho hinv
  by_cases hs : (p.runOps ops).state = .playing
  · obtain ⟨tid, dl, _, hpend⟩ := hp hs
    calc ((p.runOps ops).pending.countP _)
        ≤ (p.runOps ops).pending.length := List.countP_le_length _
      _ ≤ 1 := by rw [hpend]; simp
  · rw [hn hs]
    simp

/-- Witness for the amended C7 on a concrete loaded player. -/
theorem claim_C7_witness :
    AdvInv (mkPlayer 2 false) ∧
    ((mkPlayer 2 false).runOps [.play, .fire 0]).pending.countP
      (fun t => match t.kind with
        | .advance _ => true
        | .loopRestart _ => false) ≤ 1 :=
  ⟨⟨rfl, fun h => absurd h (by decide), fun _ => rfl⟩,
    claim_C7_single_advance (mkPlayer 2 false) [.play, .fire 0]
      ⟨rfl, fun h => absurd h (by decide), fun _ => rfl⟩
      (by decide)⟩

/-! ## Claim C9 -/

/-- Claim C9: `setPlaybackSpeed(x)` fails with `InvalidArgument` and
changes nothing for `x` outside `[0.1, 5.0]`; within the range it stores
the speed, never moves the cursor, and — while `playing` with the single
tracked advance pending — cancels that advance and schedules exactly one
new advance with delay `600 / x`. -/
theorem claim_C9_setSpeed (p : Player) (x : ℚ) :
    ((x < 1/10 ∨ 5 < x) →
      p.setPlaybackSpeedP x = .error .invalidArgument ∧
      p.applyOp (.speed x) = p) ∧
    (1/10 ≤ x → x ≤ 5 → ∃ q, p.setPlaybackSpeedP x = .ok q ∧
      q.playbackSpeed = x ∧
      q.currentStepIndex = p.currentStepIndex ∧
      q.state = p.state ∧
      q.steps = p.steps ∧
      (p.state ≠ .playing → q.pending = p.pending ∧ q.playTimer = p.playTimer) ∧
      (∀ tid dl, p.state = .playing → p.playTimer = some tid →
        p.pending = [⟨tid, .advance dl⟩] →
        q.playTimer = some p.nextTid ∧
        q.pending = [⟨p.nextTid, .advance (600 / x)⟩])) := by
  constructor
  · intro hc
    constructor
    · unfold Player.setPlaybackSpeedP
      rw [if_pos hc]
    · show (match p.setPlaybackSpeedP x with | .ok q => q | .error _ => p) = p
      unfold Player.setPlaybackSpeedP
      rw [if_pos hc]
  · intro h1 h2
    have hc : ¬ (x < 1/10 ∨ 5 < x) := by
      push_neg
      exact ⟨h1, h2⟩
    unfold Player.setPlaybackSpeedP
    rw [if_neg hc]
    dsimp only
    by_cases hs : p.state = .playing
    · rw [if_pos (by simpa using hs)]
      refine ⟨_, rfl, ?_, ?_, ?_, ?_, ?_, ?_⟩
      · show ({ p with playbackSpeed := x } : Player).clearTimer.scheduleNextStep.playbackSpeed = x
        unfold Player.scheduleNextStep Player.clearTimer
        split
        · split <;> rfl
        · split <;> rfl
      · show ({ p with playbackSpeed := x } : Player).clearTimer.scheduleNextStep.currentStepIndex
            = p.currentStepIndex
        rw [Player.idx_schedule, Player.idx_clearTimer]
      · show ({ p with playbackSpeed := x } : Player).clearTimer.scheduleNextStep.state = p.state
        rw [Player.state_schedule, Player.clearTimer_state]
      · show ({ p with playbackSpeed := x } : Player).clearTimer.scheduleNextStep.steps = p.steps
        rw [Player.steps_schedule, Player.steps_clearTimer]
      · intro hcon
        exact absurd hs hcon
      · intro tid dl _ hpt hpend
        have hcl := @Player.clearTimer_single
          ({ p with playbackSpeed := x } : Player) tid (.advance dl) hpt hpend
        unfold Player.scheduleNextStep
        rw [if_neg (by
          rw [Player.clearTimer_state]
          simpa using hs)]
        constructor
        · show some (({ p with playbackSpeed := x } : Player).clearTimer.nextTid)
            = some p.nextTid
          rw [Player.clearTimer_nextTid]
        · show ({ p with playbackSpeed := x } : Player).clearTimer.pending ++
            [⟨({ p with playbackSpeed := x } : Player).clearTimer.nextTid,
              .advance (600 / ({ p with playbackSpeed := x } : Player).clearTimer.playbackSpeed)⟩]
            = [⟨p.nextTid, .advance (600 / x)⟩]
          rw [hcl.1, Player.clearTimer_nextTid, Player.clearTimer_speed]
          simp
    · rw [if_neg (by simpa using hs)]
      exact ⟨_, rfl, rfl, rfl, rfl, rfl, fun _ => ⟨rfl, rfl⟩,
        fun tid dl hcon _ _ => absurd hcon hs⟩

/-- Witness for C9: `setSpeed(10)` fails, `setSpeed(2)` succeeds on a
concrete idle player. -/
theorem claim_C9_witness :
    ((mkPlayer 2 false).setPlaybackSpeedP 10 = .error .invalidArgument ∧
      (mkPlayer 2 false).applyOp (.speed 10) = mkPlayer 2 false) ∧
    (∃ q, (mkPlayer 2 false).setPlaybackSpeedP 2 = .ok q ∧
      q.playbackSpeed = 2 ∧
      q.currentStepIndex = (mkPlayer 2 false).currentStepIndex ∧
      q.state = (mkPlayer 2 false).state ∧
      q.steps = (mkPlayer 2 false).steps ∧
      ((mkPlayer 2 false).state ≠ .playing →
        q.pending = (mkPlayer 2 false).pending ∧
        q.playTimer = (mkPlayer 2 false).playTimer) ∧
      (∀ tid dl, (mkPlayer 2 false).state = .playing →
        (mkPlayer 2 false).playTimer = some tid →
        (mkPlayer 2 false).pending = [⟨tid, .advance dl⟩] →
        q.playTimer = some (mkPlayer 2 false).nextTid ∧
        q.pending = [⟨(mkPlayer 2 false).nextTid, .advance (600 / 2)⟩])) :=
  ⟨(claim_C9_setSpeed (mkPlayer 2 false) 10).1 (by norm_num),
    (claim_C9_setSpeed (mkPlayer 2 false) 2).2 (by norm_num) (by norm_num)⟩

/-! ## Claim C10 -/

/-- Claim C10: `loadSteps` fails on `null` or empty input (leaving the
player untouched — it throws before any assignment, and the run-level
`applyOp` convention keeps the prior state); on any non-empty list it
succeeds with the steps installed and the cursor at 0, a valid index. -/
theorem claim_C10_loadSteps (p : Player) (s : Option (List AlgorithmStep)) :
    ((s = none ∨ s = some []) → p.loadStepsP s = .error .emptySteps) ∧
    (∀ l, l ≠ [] → s = some l → ∃ q, p.loadStepsP s = .ok q ∧
      q.steps = l ∧ q.currentStepIndex = 0 ∧
      q.currentStepIndex < q.steps.length) := by
  constructor
  · intro hs
    rcases hs with rfl | rfl
    · rfl
    · rfl
  · rintro l hl rfl
    unfold Player.loadStepsP
    dsimp only
    rw [if_neg (by simpa using hl)]
    have hlen : 0 < l.length := List.length_pos.mpr hl
    by_cases ha : p.autoPlay
    · rw [if_pos (show (({ p with steps := l, currentStepIndex := 0 }
        : Player).setSt .idle).autoPlay = true from ha)]
      set p1 : Player := ({ p with steps := l, currentStepIndex := 0 } : Player).setSt .idle
      have hsteps : p1.playP.steps = l := by
        rw [Player.steps_playP]
        rfl
      have hidx : p1.playP.currentStepIndex = 0 := by
        unfold Player.playP
        rw [if_neg (by simp [p1, Player.setSt]),
          if_neg (by simp [p1, Player.setSt]), Player.idx_schedule]
        rfl
      exact ⟨p1.playP, rfl, hsteps, hidx, by rw [hsteps, hidx]; exact hlen⟩
    · rw [if_neg (show ¬ (({ p with steps := l, currentStepIndex := 0 }
        : Player).setSt .idle).autoPlay = true from ha)]
      exact ⟨_, rfl, rfl, rfl, by simpa using hlen⟩

/-- Witness for C10: loading `none` fails; loading one concrete step
succeeds with the cursor on it. -/
theorem claim_C10_witness :
    ((mkPlayer 0 false).loadStepsP none = .error .emptySteps) ∧
    (∃ q, (mkPlayer 0 false).loadStepsP (some [dummyStep]) = .ok q ∧
      q.steps = [dummyStep] ∧ q.currentStepIndex = 0 ∧
      q.currentStepIndex < q.steps.length) :=
  ⟨(claim_C10_loadSteps (mkPlayer 0 false) none).1 (Or.inl rfl),
    (claim_C10_loadSteps (mkPlayer 0 false) (some [dummyStep])).2 [dummyStep]
      (by simp) rfl⟩

/-! ## The snapshot store (`stores/sortingVisualization.ts`)

The Pinia store's refs are gathered into one record.  The snapshot id
`snapshot-${Date.now()}-${random}` and the timestamp are modelled by a
strictly increasing counter `nextSid` (distinct saves observe distinct
`Date.now()`/random draws, so ids are fresh; only equality of ids matters
to the embedded code). -/

/-- `TimelineSnapshot` from `sortingVisualization.ts` (the nested `state`
record is flattened). -/
structure Snapshot where
  sid : Nat
  timestamp : Nat
  description : String
  currentData : List Int
  currentStep : Nat
  playerState : PlayerSt
  selectedAlgorithm : String
  steps : List AlgorithmStep
deriving DecidableEq

/-- The store's state. -/
structure Store where
  selectedAlgorithm : String
  originalData : List Int
  currentData : List Int
  steps : List AlgorithmStep
  playerState : PlayerSt
  currentStep : Nat
  playbackSpeed : ℚ
  timeline : List Snapshot
  currentSnapshotIndex : Int
  isTimeTravel : Bool
  maxSnapshots : Nat
  nextSid : Nat
deriving DecidableEq

/-- Errors thrown by store actions, named after the spec's taxonomy. -/
inductive StoreErr where
  | stateConflict
  | indexOutOfRange
  | notFound
deriving DecidableEq

/-- The snapshot captured by `saveSnapshot`. -/
def Store.mkSnap (s : Store) (descr : String) : Snapshot :=
  { sid := s.nextSid
    timestamp := s.nextSid
    description := descr
    currentData := s.currentData
    currentStep := s.currentStep
    playerState := s.playerState
    selectedAlgorithm := s.selectedAlgorithm
    steps := s.steps }

/-- `saveSnapshot`: no-op during time travel; push the snapshot, point the
index at it, and — beyond `maxSnapshots` — `shift()` the oldest entry off
and decrement the index. -/
def Store.saveSnapshot (s : Store) (descr : String) : Store :=
  if s.isTimeTravel then s
  else
    let tl := s.timeline ++ [s.mkSnap descr]
    let s1 : Store :=
      { s with
        timeline := tl
        currentSnapshotIndex := (tl.length : Int) - 1
        nextSid := s.nextSid + 1 }
    if s1.maxSnapshots < s1.timeline.length then
      { s1 with
        timeline := s1.timeline.drop 1
        currentSnapshotIndex := s1.currentSnapshotIndex - 1 }
    else s1

/-- `restoreSnapshot(id)`: `NotFoundError` when absent; otherwise replace
the live session fields with the snapshot's captured state and point the
index at it.  The re-entrancy guard `isTimeTravel` is set during the
restore and cleared in the `finally`, so it ends `false`. -/
def Store.restoreSnapshot (s : Store) (sid : Nat) : Except StoreErr Store :=
  match s.timeline.find? (fun t => t.sid == sid) with
  | none => .error .notFound
  | some snap =>
    .ok { s with
      currentData := snap.currentData
      currentStep := snap.currentStep
      playerState := snap.playerState
      selectedAlgorithm := snap.selectedAlgorithm
      steps := snap.steps
      currentSnapshotIndex := (s.timeline.findIdx (fun t => t.sid == sid) : Int)
      isTimeTravel := false }

/-- `clearTimeline()`. -/
def Store.clearTimeline (s : Store) : Store :=
  { s with timeline := [], currentSnapshotIndex := -1 }

/-- `importTimeline(data)`: replaces the history wholesale (no bound
check). -/
def Store.importTimeline (s : Store) (snaps : List Snapshot) : Store :=
  { s with timeline := snaps, currentSnapshotIndex := (snaps.length : Int) - 1 }

/-- `jumpToStep(stepIndex)`: `canNavigate` guard (`StateConflictError`
while playing), range check, cursor and data update, snapshot save. -/
def Store.jumpToStep (s : Store) (i : Int) : Except StoreErr Store :=
  if ¬ (s.playerState ≠ .playing ∧ 0 < s.steps.length) then
    .error .stateConflict
  else if i < 0 ∨ (s.steps.length : Int) ≤ i then
    .error .indexOutOfRange
  else
    let s2 : Store := { s with currentStep := i.toNat }
    let s3 : Store :=
      match s2.steps[i.toNat]? with
      | some st => { s2 with currentData := st.arrayState.data }
      | none => s2
    .ok (s3.saveSnapshot ("跳轉步驟: 跳轉到步驟 " ++ toString (i.toNat + 1)))

/-- `nextStep()` of the store: guarded `jumpToStep(currentStep + 1)`. -/
def Store.nextStep (s : Store) : Except StoreErr Store :=
  if (s.currentStep : Int) < (s.steps.length : Int) - 1 then
    s.jumpToStep ((s.currentStep : Int) + 1)
  else .ok s

/-- `previousStep()` of the store: guarded `jumpToStep(currentStep - 1)`. -/
def Store.previousStep (s : Store) : Except StoreErr Store :=
  if 0 < s.currentStep then
    s.jumpToStep ((s.currentStep : Int) - 1)
  else .ok s

/-- The store as initialized in `sortingVisualization.ts`. -/
def mkStore : Store :=
  { selectedAlgorithm := "bubble-sort"
    originalData := [64, 34, 25, 12, 22, 11, 90]
    currentData := [64, 34, 25, 12, 22, 11, 90]
    steps := []
    playerState := .idle
    currentStep := 0
    playbackSpeed := 1
    timeline := []
    currentSnapshotIndex := -1
    isTimeTravel := false
    maxSnapshots := 100
    nextSid := 0 }

/-! ## Claim C6 (amended, store side) -/

/-- Claim C6 (amended): in the store layer, while `playing`, `nextStep()`
and `previousStep()` never change the session: away from the sequence
boundaries they fail with `StateConflictError` (via the `canNavigate`
guard of `jumpToStep`), at the boundaries they return silently.  The
`SortingPlayer` layer imposes no such guard (see the counterexample). -/
theorem claim_C6_store_navigation (s : Store) (hs : s.playerState = .playing) :
    (s.nextStep = .ok s ∨ s.nextStep = .error .stateConflict) ∧
    (s.previousStep = .ok s ∨ s.previousStep = .error .stateConflict) ∧
    ((s.currentStep : Int) < (s.steps.length : Int) - 1 →
      s.nextStep = .error .stateConflict) ∧
    (0 < s.currentStep → s.previousStep = .error .stateConflict) := by
  have hjump : ∀ i, s.jumpToStep i = .error .stateConflict := by
    intro i
    unfold Store.jumpToStep
    rw [if_pos (by
      rintro ⟨hne, _⟩
      exact hne hs)]
  constructor
  · unfold Store.nextStep
    split
    · rw [hjump]
      exact Or.inr rfl
    · exact Or.inl rfl
  constructor
  · unfold Store.previousStep
    split
    · rw [hjump]
      exact Or.inr rfl
    · exact Or.inl rfl
  constructor
  · intro hlt
    unfold Store.nextStep
    rw [if_pos hlt, hjump]
  · intro hgt
    unfold Store.previousStep
    rw [if_pos hgt, hjump]

/-- Witness for the amended C6 on a concrete playing store. -/
theorem claim_C6_witness :
    ({ mkStore with playerState := .playing, steps := [dummyStep, dummyStep] }
        : Store).playerState = .playing ∧
    ({ mkStore with playerState := .playing, steps := [dummyStep, dummyStep] }
        : Store).nextStep = .error .stateConflict :=
  ⟨rfl,
    (claim_C6_store_navigation
      { mkStore with playerState := .playing, steps := [dummyStep, dummyStep] }
      rfl).2.2.1 (by decide)⟩

/-! ## Claim C8 -/

/-- A fixed snapshot used by concrete timelines. -/
def dummySnap : Snapshot :=
  { sid := 0, timestamp := 0, description := "s", currentData := [],
    currentStep := 0, playerState := .idle,
    selectedAlgorithm := "bubble-sort", steps := [] }

/-- Claim C8 counterexample: `importTimeline` installs an imported list of
101 snapshots verbatim, leaving the timeline above the `maxSnapshots = 100`
bound — so the bound does not hold "after every snapshot-store operation"
as claimed. -/
theorem claim_C8_counterexample :
    mkStore.maxSnapshots = 100 ∧
    (mkStore.importTimeline (List.replicate 101 dummySnap)).timeline.length
      = 101 := by
  constructor <;> decide

/-- Claim C8 (amended): `saveSnapshot`, `restoreSnapshot` and
`clearTimeline` keep the timeline within the 100-snapshot bound (oldest
evicted first, index bookkeeping decremented, so the 101st save leaves the
count at 100); `importTimeline`, however, replaces the timeline wholesale
with the imported list without enforcing the bound. -/
theorem claim_C8_snapshot_bound (s : Store) (descr : String)
    (hmax : s.maxSnapshots = 100) :
    (s.timeline.length ≤ 100 → (s.saveSnapshot descr).timeline.length ≤ 100) ∧
    (∀ sid s', s.restoreSnapshot sid = .ok s' →
      s'.timeline.length = s.timeline.length) ∧
    (s.clearTimeline.timeline.length = 0) ∧
    (s.timeline.length = 100 → s.isTimeTravel = false →
      (s.saveSnapshot descr).timeline = (s.timeline ++ [s.mkSnap descr]).drop 1 ∧
      (s.saveSnapshot descr).timeline.length = 100 ∧
      (s.saveSnapshot descr).currentSnapshotIndex = 99) ∧
    (∀ snaps, (s.importTimeline snaps).timeline = snaps) := by
  refine ⟨?_, ?_, rfl, ?_, fun _ => rfl⟩
  · intro hlen
    unfold Store.saveSnapshot
    split
    · exact hlen
    · dsimp only
      split
      · next hover =>
        simp only [List.length_append, List.length_replicate] at hover ⊢
        simp only [List.length_drop]
        simp at hover ⊢
        omega
      · next hok =>
        simp at hok
        simp
        omega
  · intro sid s' hres
    unfold Store.restoreSnapshot at hres
    split at hres
    · exact absurd hres (by simp)
    · simp only [Except.ok.injEq] at hres
      rw [← hres]
  · intro hlen hitt
    unfold Store.saveSnapshot
    rw [if_neg (by rw [hitt]; simp)]
    dsimp only
    rw [if_pos (by simp [hmax, hlen])]
    refine ⟨rfl, ?_, ?_⟩
    · simp [hlen]
    · simp [hlen]

/-- Witness for the amended C8 on the freshly initialized store. -/
theorem claim_C8_witness :
    mkStore.maxSnapshots = 100 ∧ mkStore.timeline.length ≤ 100 ∧
    (mkStore.saveSnapshot "d").timeline.length ≤ 100 :=
  ⟨by decide, by decide,
    (claim_C8_snapshot_bound mkStore "d" (by decide)).1 (by decide)⟩
